import Mathlib

/-!
Verification of the wav-to-mp3 conversion library.

This file gives a shallow embedding of the library's conversion pipeline:

* the iOS native path (src/ios/WavToMp3.mm, method convertWavToMp3): RIFF/WAVE
  chunk scanning, format validation, LAME configuration, the encode loop and its
  progress events, and resource (file handle / encoder session) lifecycles;
* the Android native path (src/android/src/main/cpp/wav_to_mp3.cpp):
  nativeConvertWavToMp3 (fixed-offset WAV header read, no validation),
  nativeConvertAudioToMp3 with its aac/wav/raw dispatch, decodeAacToPcm,
  decodeAacToPcmWithFd and decodeAacToPcmFallback;
* the strict TypeScript option validation (WavToMp3Converter.convert).

Byte streams are lists of natural numbers (each byte in 0..255); the LAME
encoder and the media-extraction stack are external collaborators modelled by
oracles (records of the results the library observes from them).  File reads
follow C stdio semantics: fread returns the number of complete items available,
and seeking past the end makes the next read return zero items.
-/

namespace WavMp3

/-! ## Byte-level helpers -/

/-- Bytes of stream `d` starting at offset `p`, at most `n` of them (what a
call to fread with item size 1 observes at position `p`). -/
def bytesAt (d : List Nat) (p n : Nat) : List Nat :=
  (d.drop p).take n

/-- Value of a little-endian byte list. -/
def leVal : List Nat → Nat
  | [] => 0
  | b :: bs => b + 256 * leVal bs

/-- Little-endian encoding of `n` in 4 bytes (a RIFF chunk-length field). -/
def le32 (n : Nat) : List Nat :=
  [n % 256, n / 256 % 256, n / 65536 % 256, n / 16777216 % 256]

/-- Reading a 2-byte little-endian value into a C short (sign extension). -/
def toInt16 (n : Nat) : Int :=
  if n % 65536 < 32768 then (n % 65536 : Int) else (n % 65536 : Int) - 65536

/-- Reading a 4-byte little-endian value into a C int (sign extension). -/
def toInt32 (n : Nat) : Int :=
  if n % 4294967296 < 2147483648 then (n % 4294967296 : Int)
  else (n % 4294967296 : Int) - 4294967296

/-- ASCII bytes of the literal RIFF. -/
def riffTag : List Nat := [82, 73, 70, 70]

/-- ASCII bytes of the literal WAVE. -/
def waveTag : List Nat := [87, 65, 86, 69]

/-- ASCII bytes of the 4-byte chunk identifier for the fmt chunk. -/
def fmtTag : List Nat := [102, 109, 116, 32]

/-- ASCII bytes of the 4-byte chunk identifier for the data chunk. -/
def dataTag : List Nat := [100, 97, 116, 97]

/-! ## The RIFF chunk scan (src/ios/WavToMp3.mm lines 90-162)

The iOS implementation searches for a chunk with a given identifier by
repeatedly reading a 4-byte identifier and a 4-byte little-endian length and
skipping the chunk body on a mismatch.  The loop stops when either fread
returns fewer items than requested (end of stream).  One scan step is only
possible when 8 header bytes are available, so a fuel of one unit per 8 bytes
is always enough; the wrapper below supplies more. -/

/-- Fuelled chunk scan.  Returns (payload start offset, declared chunk length)
for the first chunk at or after offset `pos` whose identifier is `tag`. -/
def scanChunkAux : Nat → List Nat → List Nat → Nat → Option (Nat × Nat)
  | 0, _, _, _ => none
  | f + 1, d, tag, pos =>
    if pos + 8 ≤ d.length then
      if bytesAt d pos 4 = tag then
        some (pos + 8, leVal (bytesAt d (pos + 4) 4))
      else
        scanChunkAux f d tag (pos + 8 + leVal (bytesAt d (pos + 4) 4))
    else none

/-- Chunk scan as performed by the iOS while loops: fread a 4-byte id, fread a
4-byte length, stop on a short read, skip the body on a mismatch. -/
def scanChunk (d : List Nat) (tag : List Nat) (pos : Nat) : Option (Nat × Nat) :=
  scanChunkAux (d.length + 1) d tag pos

/-! ## Parsed WAV header data (iOS path) -/

/-- Reject codes of the iOS convertWavToMp3 promise, as passed to the React
Native reject callback.  WAV_ERROR covers all malformed/unsupported container
rejections (the FormatError kind of the specification). -/
inductive RejectCode
  | directoryError
  | fileError
  | wavNotRiff
  | wavNotWave
  | wavNoFmt
  | wavNoData
  | wavBadFormat
  | wavBadBits
  | lameInitError
  | lameParamsError
  | memoryError
  | encodeError
deriving DecidableEq, Repr

/-- Whether a reject code is one of the WAV_ERROR (FormatError) rejections. -/
def isFormatError : RejectCode → Bool
  | .wavNotRiff | .wavNotWave | .wavNoFmt | .wavNoData
  | .wavBadFormat | .wavBadBits => true
  | _ => false

/-- Header fields read by the iOS parser, plus the located data chunk. -/
structure WavHeaderInfo where
  audioFormat : Int
  channels : Int
  sampleRate : Int
  bitsPerSample : Int
  dataStart : Nat
  dataSize : Nat
deriving DecidableEq, Repr

/-- Errors of the header-scanning phase (before the fmt validation, which the
source performs only after the data chunk has been located). -/
inductive WavParseError
  | notRiff
  | notWave
  | missingFmt
  | missingData
deriving DecidableEq, Repr

/-- Reject code used by the iOS source for each parse error. -/
def parseReject : WavParseError → RejectCode
  | .notRiff => .wavNotRiff
  | .notWave => .wavNotWave
  | .missingFmt => .wavNoFmt
  | .missingData => .wavNoData

namespace Ios

/-- The WAV header scan of src/ios/WavToMp3.mm lines 67-170: check RIFF at
offset 0, skip the 4-byte file size, check WAVE at offset 8, scan for the fmt
chunk from offset 12, read the six fmt fields, skip any remaining fmt payload,
then scan for the data chunk.  The data chunk payload starts at the returned
dataStart.  Streams that end inside the fmt fields leave the corresponding C
variables unspecified; such bytes are read as zero here (no claim depends on
that region). -/
def parseWavHeader (d : List Nat) : Except WavParseError WavHeaderInfo :=
  if bytesAt d 0 4 ≠ riffTag then .error .notRiff
  else if bytesAt d 8 4 ≠ waveTag then .error .notWave
  else
    match scanChunk d fmtTag 12 with
    | none => .error .missingFmt
    | some (fp, fsz) =>
      let audioFormat := toInt16 (leVal (bytesAt d fp 2))
      let channels := toInt16 (leVal (bytesAt d (fp + 2) 2))
      let sampleRate := toInt32 (leVal (bytesAt d (fp + 4) 4))
      let bitsPerSample := toInt16 (leVal (bytesAt d (fp + 14) 2))
      let afterFmt := fp + (if fsz > 16 then fsz else 16)
      match scanChunk d dataTag afterFmt with
      | none => .error .missingData
      | some (dp, dsz) => .ok ⟨audioFormat, channels, sampleRate, bitsPerSample, dp, dsz⟩

end Ios

/-! ## Encoder configuration and the LAME oracle -/

/-- Conversion options as received by the iOS native method (an NSDictionary
whose bitrate and quality entries may each be absent). -/
structure IosOptions where
  bitrate : Option Int
  quality : Option Int
deriving DecidableEq, Repr

/-- The bitrate and quality handed to lame_set_brate and lame_set_quality,
plus the unconditional vbr_off setting. -/
structure EncoderConfig where
  brate : Int
  quality : Int
  vbrOff : Bool
deriving DecidableEq, Repr

namespace Ios

/-- Option application of src/ios/WavToMp3.mm lines 196-217: a supplied
bitrate/quality value is passed through; an absent one falls back to the
hard-coded defaults 32 kbps and quality 7 (and the same defaults apply when no
options dictionary is given at all).  VBR is switched off at line 221. -/
def applyOptions (options : Option IosOptions) : EncoderConfig :=
  match options with
  | some o =>
    { brate := match o.bitrate with | some b => b | none => 32
      quality := match o.quality with | some q => q | none => 7
      vbrOff := true }
  | none => { brate := 32, quality := 7, vbrOff := true }

end Ios

namespace Android

/-- Option application of src/android/src/main/cpp/wav_to_mp3.cpp lines
609-629 (and its copies at lines 800-816, 932-948, 1044-1060): the Kotlin
bridge passes -1 for an absent option; -1 selects the defaults 128 kbps and
quality 5.  VBR is switched off unconditionally. -/
def applyOptions (bitrate quality : Int) : EncoderConfig :=
  { brate := if bitrate ≠ -1 then bitrate else 128
    quality := if quality ≠ -1 then quality else 5
    vbrOff := true }

end Android

/-- Results the conversion routines observe from their environment: fopen
results, lame_init success, the lame_init_params return value, malloc success
(iOS only), and the byte counts returned by each encode-buffer call (a
function of the sequence of PCM chunks fed to the encoder so far, making the
encoder deterministic in its input history) and by the final flush. -/
structure LameOracle where
  wavOpenOk : Bool
  mp3OpenOk : Bool
  initOk : Bool
  initParamsRes : Int
  bufAllocOk : Bool
  mp3BufAllocOk : Bool
  encodeRes : List (List Nat) → Int
  flushRes : Int

/-- The fixed PCM read-buffer size (in frames) used by every encode loop in
the repository: const int bufferSize = 4096. -/
def bufferSize : Nat := 4096

/-- Size in bytes of the allocated MP3 output buffer: bufferSize * 2. -/
def mp3BufferBytes : Nat := bufferSize * 2

/-- The worst-case MP3 buffer size the LAME encoder contract requires for one
encode call over n frames: 1.25 * n + 7200 bytes. -/
def lameWorstCase (n : Nat) : Nat := 5 * n / 4 + 7200

/-- Which LAME encode entry point a loop iteration invoked. -/
inductive EntryKind
  | encodeBuffer
  | encodeBufferInterleaved
deriving DecidableEq, Repr

/-- One call of the encode loop into the LAME encoder: the entry point used,
the frame count passed, the number of 16-bit samples fread returned for the
iteration, and the output-buffer size passed as mp3buf_size. -/
structure EncodeCall where
  entry : EntryKind
  frames : Nat
  shortsRead : Nat
  mp3bufSize : Nat
deriving DecidableEq, Repr

/-- Result of running an encode loop: the encoder calls made, the progress
samples emitted (iOS only; a sample records the bytesProcessed numerator and
totalBytes denominator whose quotient is the emitted fraction), the MP3 bytes
written, and whether an encode-buffer call failed (negative return). -/
structure LoopOut where
  calls : List EncodeCall
  progress : List (Nat × Nat)
  outBytes : Nat
  failed : Bool
deriving DecidableEq, Repr

namespace Ios

/-- One encode-loop iteration consumes at least two PCM bytes, so a fuel of
one unit per two bytes terminates the recursion; the wrapper supplies more.

Loop body of src/ios/WavToMp3.mm lines 287-316: fread up to
bufferSize * channels 16-bit samples; stop when none were read; compute
samplesRead = shortsRead / channels and skip the iteration when it is zero;
encode with lame_encode_buffer when channels is 1 and
lame_encode_buffer_interleaved otherwise, passing samplesRead frames and an
output buffer of bufferSize * 2 bytes; reject on a negative return; write the
returned bytes; advance bytesProcessed by the bytes read and emit an
onProgress event with fraction bytesProcessed / totalBytes. -/
def loopAux : Nat → LameOracle → Nat → Nat → List Nat → Nat → List (List Nat) → LoopOut
  | 0, _, _, _, _, _, _ => ⟨[], [], 0, false⟩
  | f + 1, oc, ch, total, pcm, bp, hist =>
    let shorts := min (bufferSize * ch) (pcm.length / 2)
    if shorts = 0 then ⟨[], [], 0, false⟩
    else
      let chunk := pcm.take (2 * shorts)
      let rest := pcm.drop (2 * shorts)
      let frames := shorts / ch
      if frames = 0 then loopAux f oc ch total rest bp hist
      else
        let res := oc.encodeRes (hist ++ [chunk])
        let call : EncodeCall :=
          ⟨if ch = 1 then .encodeBuffer else .encodeBufferInterleaved,
           frames, shorts, mp3BufferBytes⟩
        if res < 0 then ⟨[call], [], 0, true⟩
        else
          let bp2 := bp + 2 * shorts
          let r := loopAux f oc ch total rest bp2 (hist ++ [chunk])
          ⟨call :: r.calls, (bp2, total) :: r.progress,
           res.toNat + r.outBytes, r.failed⟩

/-- The iOS encode loop, starting with bytesProcessed = dataStartPosition. -/
def loop (oc : LameOracle) (ch total : Nat) (pcm : List Nat) (bp : Nat) : LoopOut :=
  loopAux (pcm.length + 1) oc ch total pcm bp []

end Ios

/-- Resource events a conversion emits, in program order: successful encoder
session creation (lame_init returning non-null), lame_close, and the fclose of
the input and output files. -/
inductive REv
  | lameInit
  | lameClose
  | closeWav
  | closeMp3
deriving DecidableEq, Repr

/-- Outcome of the iOS convert method: the promise is rejected with a code or
resolved with the output path. -/
inductive IosOutcome
  | rejected (code : RejectCode)
  | resolved
deriving DecidableEq, Repr

/-- Everything observable about one run of the iOS convertWavToMp3 method.
Each progress sample records the (bytesProcessed, totalBytes) pair whose
quotient is the fraction delivered to the onProgress event. -/
structure IosRun where
  outcome : IosOutcome
  events : List REv
  calls : List EncodeCall
  progress : List (Nat × Nat)
  outBytes : Nat
  config : Option EncoderConfig
deriving Repr

instance : DecidableEq (Except WavParseError WavHeaderInfo) := fun a b =>
  match a, b with
  | .error e, .error f => decidable_of_iff (e = f) (by simp)
  | .error _, .ok _ => isFalse (by simp)
  | .ok _, .error _ => isFalse (by simp)
  | .ok x, .ok y => decidable_of_iff (x = y) (by simp)

namespace Ios

/-- The iOS convertWavToMp3 method (src/ios/WavToMp3.mm lines 13-348), from
the fopen calls onward: open both files (closing any opened handle and
rejecting with FILE_ERROR when either open fails), parse and validate the WAV
header, create the LAME session, apply options, run lame_init_params, allocate
the PCM and MP3 buffers, seek back to the data start, run the encode loop with
progress events (totalBytes is the size of the whole input file), flush, and
close everything.  The directory-creation and attribute steps that precede the
fopen calls touch only the filesystem and are outside this model. -/
def convertWavToMp3 (d : List Nat) (opts : Option IosOptions) (oc : LameOracle) : IosRun :=
  if ¬ (oc.wavOpenOk ∧ oc.mp3OpenOk) then
    { outcome := .rejected .fileError
      events := (if oc.wavOpenOk then [.closeWav] else [])
        ++ (if oc.mp3OpenOk then [.closeMp3] else [])
      calls := [], progress := [], outBytes := 0, config := none }
  else
    match parseWavHeader d with
    | .error e =>
      { outcome := .rejected (parseReject e), events := [.closeWav, .closeMp3]
        calls := [], progress := [], outBytes := 0, config := none }
    | .ok info =>
      if info.audioFormat ≠ 1 then
        { outcome := .rejected .wavBadFormat, events := [.closeWav, .closeMp3]
          calls := [], progress := [], outBytes := 0, config := none }
      else if info.bitsPerSample ≠ 16 then
        { outcome := .rejected .wavBadBits, events := [.closeWav, .closeMp3]
          calls := [], progress := [], outBytes := 0, config := none }
      else if ¬ oc.initOk then
        { outcome := .rejected .lameInitError, events := [.closeWav, .closeMp3]
          calls := [], progress := [], outBytes := 0, config := none }
      else
        let cfg := applyOptions opts
        if oc.initParamsRes < 0 then
          { outcome := .rejected .lameParamsError
            events := [.lameInit, .lameClose, .closeWav, .closeMp3]
            calls := [], progress := [], outBytes := 0, config := some cfg }
        else if ¬ (oc.bufAllocOk ∧ oc.mp3BufAllocOk) then
          { outcome := .rejected .memoryError
            events := [.lameInit, .lameClose, .closeWav, .closeMp3]
            calls := [], progress := [], outBytes := 0, config := some cfg }
        else
          let r := loop oc info.channels.toNat d.length (d.drop info.dataStart) info.dataStart
          if r.failed then
            { outcome := .rejected .encodeError
              events := [.lameInit, .lameClose, .closeWav, .closeMp3]
              calls := r.calls, progress := r.progress, outBytes := r.outBytes
              config := some cfg }
          else
            { outcome := .resolved
              events := [.lameInit, .lameClose, .closeWav, .closeMp3]
              calls := r.calls, progress := r.progress
              outBytes := r.outBytes + (if oc.flushRes > 0 then oc.flushRes.toNat else 0)
              config := some cfg }

end Ios

/-! ## The Android native path (src/android/src/main/cpp/wav_to_mp3.cpp) -/

/-- Which decode routine left its mark during nativeConvertAudioToMp3. -/
inductive DecodeStep
  | primaryAttempt
  | fdAttempt
  | fallbackSilence
  | fallbackRawCopy
deriving DecidableEq, Repr

/-- Everything observable about one run of an Android native conversion: the
jint result (0 on success, -1 on failure), the resource events, the encoder
calls, the bytes written, the configuration applied, and which decode
routines ran. -/
structure AndroidRun where
  result : Int
  events : List REv
  calls : List EncodeCall
  outBytes : Nat
  config : Option EncoderConfig
  decodeSteps : List DecodeStep
deriving Repr

namespace Android

/-- The fixed-offset WAV header read of nativeConvertWavToMp3 (lines 586-590):
seek to 22 and fread channels (short) and sampleRate (int), seek to 34 and
fread bitsPerSample (short).  No marker or field is validated.  Returns
(channels, sampleRate, bitsPerSample). -/
def readWavHeader (d : List Nat) : Int × Int × Int :=
  (toInt16 (leVal (bytesAt d 22 2)),
   toInt32 (leVal (bytesAt d 24 4)),
   toInt16 (leVal (bytesAt d 34 2)))

/-- Loop body of nativeConvertWavToMp3 lines 654-675 (identical at 840-863,
971-993 and 1083-1105): fread up to bufferSize * channels 16-bit samples;
stop when none were read; for channels = 1 call lame_encode_buffer passing
bytesRead (the fread return, a sample count) as the frame count, otherwise
call lame_encode_buffer_interleaved passing bytesRead / channels frames; the
output buffer passed is bufferSize * 2 bytes; return -1 on a negative encoder
return; write the returned bytes.  No progress events are emitted. -/
def loopAux : Nat → LameOracle → Nat → List Nat → List (List Nat) → LoopOut
  | 0, _, _, _, _ => ⟨[], [], 0, false⟩
  | f + 1, oc, ch, pcm, hist =>
    let shorts := min (bufferSize * ch) (pcm.length / 2)
    if shorts = 0 then ⟨[], [], 0, false⟩
    else
      let chunk := pcm.take (2 * shorts)
      let res := oc.encodeRes (hist ++ [chunk])
      let call : EncodeCall :=
        ⟨if ch = 1 then .encodeBuffer else .encodeBufferInterleaved,
         if ch = 1 then shorts else shorts / ch, shorts, mp3BufferBytes⟩
      if res < 0 then ⟨[call], [], 0, true⟩
      else
        let r := loopAux f oc ch (pcm.drop (2 * shorts)) (hist ++ [chunk])
        ⟨call :: r.calls, [], res.toNat + r.outBytes, r.failed⟩

/-- The Android encode loop. -/
def loop (oc : LameOracle) (ch : Nat) (pcm : List Nat) : LoopOut :=
  loopAux (pcm.length + 1) oc ch pcm []

/-- The shared LAME stage that every Android branch duplicates verbatim
(lame_init, channel/rate/option configuration, vbr_off, lame_init_params, the
encode loop over the given PCM bytes, the flush, and the unconditional
cleanup).  The result places the decodeSteps of the caller in the run. -/
def encodePipeline (ch : Nat) (pcm : List Nat) (bitrate quality : Int)
    (oc : LameOracle) (steps : List DecodeStep) : AndroidRun :=
  if ¬ oc.initOk then
    { result := -1, events := [.closeWav, .closeMp3], calls := [], outBytes := 0
      config := none, decodeSteps := steps }
  else
    let cfg := applyOptions bitrate quality
    if oc.initParamsRes < 0 then
      { result := -1, events := [.lameInit, .lameClose, .closeWav, .closeMp3]
        calls := [], outBytes := 0, config := some cfg, decodeSteps := steps }
    else
      let r := loop oc ch pcm
      if r.failed then
        { result := -1, events := [.lameInit, .lameClose, .closeWav, .closeMp3]
          calls := r.calls, outBytes := r.outBytes, config := some cfg
          decodeSteps := steps }
      else
        { result := 0, events := [.lameInit, .lameClose, .closeWav, .closeMp3]
          calls := r.calls
          outBytes := r.outBytes + (if oc.flushRes > 0 then oc.flushRes.toNat else 0)
          config := some cfg, decodeSteps := steps }

/-- nativeConvertWavToMp3 (lines 534-708): open both files (when either open
fails the function returns -1 without closing the one that did open), read
the WAV header fields from fixed offsets 22/24/34 with no validation, then
seek to offset 44 and run the LAME stage over everything from there to the
end of the file. -/
def nativeConvertWavToMp3 (d : List Nat) (bitrate quality : Int)
    (oc : LameOracle) : AndroidRun :=
  if ¬ (oc.wavOpenOk ∧ oc.mp3OpenOk) then
    { result := -1, events := [], calls := [], outBytes := 0
      config := none, decodeSteps := [] }
  else
    let h := readWavHeader d
    encodePipeline h.1.toNat (d.drop 44) bitrate quality oc []

end Android

namespace Android

/-- Results one decode attempt observes from the media-extraction stack: the
success of each configuration step and the PCM bytes the MediaCodec drain
loop writes when everything succeeds, plus the declared track parameters
(substituted by 44100 Hz / 1 channel when the container omits them). -/
structure ExtractorOracle where
  extractorNewOk : Bool
  setDataSourceOk : Bool
  hasAudioTrack : Bool
  sampleRateKnown : Bool
  sampleRateVal : Int
  channelsKnown : Bool
  channelsVal : Int
  codecCreateOk : Bool
  configureOk : Bool
  startOk : Bool
  pcmOpenOk : Bool
  decodedPcm : List Nat

/-- Environment of the AAC decode path: the primary path-based attempt, the
file-descriptor retry, and the open/fstat steps specific to the retry. -/
structure AacOracle where
  primary : ExtractorOracle
  fdOpenOk : Bool
  fstatOk : Bool
  fd : ExtractorOracle

/-- Result of one decode routine: the int return value (0 success, -1
failure), the sample rate and channel count reported through the out
parameters, the PCM bytes written to the temporary file, and which decode
routines ran. -/
structure DecodeOut where
  result : Int
  sampleRate : Int
  channels : Int
  pcm : List Nat
  steps : List DecodeStep
deriving Repr

/-- decodeAacToPcmWithFd (lines 40-244): open the input by file descriptor,
create an extractor, fstat, set the data source from the descriptor, select
the first track whose MIME type starts with audio/, read its sample rate and
channel count (defaults 44100 / 1 when absent), create, configure and start
the decoder, open the PCM output file, then drain the codec.  Every failure
returns -1. -/
def decodeAacToPcmWithFd (oc : AacOracle) : DecodeOut :=
  if ¬ oc.fdOpenOk then ⟨-1, 0, 0, [], [.fdAttempt]⟩
  else if ¬ oc.fd.extractorNewOk then ⟨-1, 0, 0, [], [.fdAttempt]⟩
  else if ¬ oc.fstatOk then ⟨-1, 0, 0, [], [.fdAttempt]⟩
  else if ¬ oc.fd.setDataSourceOk then ⟨-1, 0, 0, [], [.fdAttempt]⟩
  else if ¬ oc.fd.hasAudioTrack then ⟨-1, 0, 0, [], [.fdAttempt]⟩
  else
    let rate := if oc.fd.sampleRateKnown then oc.fd.sampleRateVal else 44100
    let ch := if oc.fd.channelsKnown then oc.fd.channelsVal else 1
    if ¬ oc.fd.codecCreateOk then ⟨-1, rate, ch, [], [.fdAttempt]⟩
    else if ¬ oc.fd.configureOk then ⟨-1, rate, ch, [], [.fdAttempt]⟩
    else if ¬ oc.fd.startOk then ⟨-1, rate, ch, [], [.fdAttempt]⟩
    else if ¬ oc.fd.pcmOpenOk then ⟨-1, rate, ch, [], [.fdAttempt]⟩
    else ⟨0, rate, ch, oc.fd.decodedPcm, [.fdAttempt]⟩

/-- decodeAacToPcm (lines 247-430): create an extractor and set the data
source from the path; when setting the data source fails, fall back to
decodeAacToPcmWithFd; otherwise select the first audio track, read the track
parameters, create, configure and start the decoder, open the PCM output, and
drain the codec.  Every other failure returns -1 directly (the
file-descriptor retry is attempted only after a setDataSource failure, and
decodeAacToPcmFallback is never called). -/
def decodeAacToPcm (oc : AacOracle) : DecodeOut :=
  if ¬ oc.primary.extractorNewOk then ⟨-1, 0, 0, [], [.primaryAttempt]⟩
  else if ¬ oc.primary.setDataSourceOk then
    let r := decodeAacToPcmWithFd oc
    { r with steps := .primaryAttempt :: r.steps }
  else if ¬ oc.primary.hasAudioTrack then ⟨-1, 0, 0, [], [.primaryAttempt]⟩
  else
    let rate := if oc.primary.sampleRateKnown then oc.primary.sampleRateVal else 44100
    let ch := if oc.primary.channelsKnown then oc.primary.channelsVal else 1
    if ¬ oc.primary.codecCreateOk then ⟨-1, rate, ch, [], [.primaryAttempt]⟩
    else if ¬ oc.primary.configureOk then ⟨-1, rate, ch, [], [.primaryAttempt]⟩
    else if ¬ oc.primary.startOk then ⟨-1, rate, ch, [], [.primaryAttempt]⟩
    else if ¬ oc.primary.pcmOpenOk then ⟨-1, rate, ch, [], [.primaryAttempt]⟩
    else ⟨0, rate, ch, oc.primary.decodedPcm, [.primaryAttempt]⟩

/-- decodeAacToPcmFallback (lines 433-530): the degraded last-resort routine.
It sniffs the first bytes; for a non-AAC-looking file it copies the input
verbatim as raw audio, and for an ADTS/M4A file it writes silence sized by a
128 kbps duration estimate.  The input argument is the input file's bytes and
outOpenOk the success of opening the output file. -/
def decodeAacToPcmFallback (input : List Nat) (outOpenOk : Bool) : DecodeOut :=
  if input.length < 2 then ⟨-1, 0, 0, [], []⟩
  else
    let isAdtsAac := input.headD 0 = 255 ∧ (input[1]? = some 241 ∨ input[1]? = some 249)
    let isM4A := bytesAt input 0 4 = [102, 116, 121, 112]
    if ¬ isAdtsAac ∧ ¬ isM4A then
      if ¬ outOpenOk then ⟨-1, 44100, 1, [], []⟩
      else ⟨0, 44100, 1, input, [.fallbackRawCopy]⟩
    else
      if ¬ outOpenOk then ⟨-1, 44100, 1, [], []⟩
      else
        let estimatedDurationMs := input.length * 8 * 1000 / 128000
        let samplesNeeded := estimatedDurationMs * 44100 / 1000
        ⟨0, 44100, 1, List.replicate (2 * samplesNeeded) 0, [.fallbackSilence]⟩

/-- ASCII code of the dot character. -/
def dotByte : Nat := 46

/-- tolower for an ASCII byte. -/
def lowerAscii (c : Nat) : Nat := if 65 ≤ c ∧ c ≤ 90 then c + 32 else c

/-- getFileFormat (lines 27-37): everything after the last dot of the path,
lowercased; the empty string when the path has no dot.  Paths are byte
strings here. -/
def getFileFormat (filename : List Nat) : List Nat :=
  if dotByte ∈ filename then
    ((filename.reverse.takeWhile (fun c => c ≠ dotByte)).reverse).map lowerAscii
  else []

/-- ASCII bytes of the extension aac. -/
def aacExt : List Nat := [97, 97, 99]

/-- ASCII bytes of the extension wav. -/
def wavExt : List Nat := [119, 97, 118]

/-- Environment of nativeConvertAudioToMp3: the AAC decode environment, the
open results for the post-decode files, and the LAME stage environment. -/
structure AudioConvOracle where
  aac : AacOracle
  pcmReopenOk : Bool
  mp3OpenOk : Bool
  lame : LameOracle

/-- nativeConvertAudioToMp3 (lines 710-1139), dispatching on the extension of
the input path.  For aac: decodeAacToPcm, returning -1 when it fails, then
the LAME stage over the decoded PCM with the decoded channel count.  For wav:
the fixed-offset header read and the LAME stage over the bytes from offset 44
(same code as nativeConvertWavToMp3).  Otherwise: the raw branch with 1
channel at 44100 Hz over the whole input. -/
def nativeConvertAudioToMp3 (path d : List Nat) (bitrate quality : Int)
    (oc : AudioConvOracle) : AndroidRun :=
  let fmt := getFileFormat path
  if fmt = aacExt then
    let dec := decodeAacToPcm oc.aac
    if dec.result ≠ 0 then
      { result := -1, events := [], calls := [], outBytes := 0
        config := none, decodeSteps := dec.steps }
    else if ¬ (oc.pcmReopenOk ∧ oc.mp3OpenOk) then
      { result := -1, events := [], calls := [], outBytes := 0
        config := none, decodeSteps := dec.steps }
    else
      encodePipeline dec.channels.toNat dec.pcm bitrate quality oc.lame dec.steps
  else if fmt = wavExt then
    if ¬ (oc.lame.wavOpenOk ∧ oc.lame.mp3OpenOk) then
      { result := -1, events := [], calls := [], outBytes := 0
        config := none, decodeSteps := [] }
    else
      let h := readWavHeader d
      encodePipeline h.1.toNat (d.drop 44) bitrate quality oc.lame []
  else
    if ¬ (oc.lame.wavOpenOk ∧ oc.lame.mp3OpenOk) then
      { result := -1, events := [], calls := [], outBytes := 0
        config := none, decodeSteps := [] }
    else
      encodePipeline 1 d bitrate quality oc.lame []

end Android

/-! ## The strict TypeScript façade (src/unnamed/part_005, WavToMp3Converter) -/

namespace Ts

/-- Options of the TypeScript convert API; each field may be undefined. -/
structure WavToMp3Options where
  bitrate : Option Int
  quality : Option Int
deriving DecidableEq, Repr

/-- Outcome of WavToMp3Converter.convert: a thrown validation Error, or the
invocation of the native module with the given arguments. -/
inductive TsOutcome
  | validationError (msg : String)
  | nativeCall (inputPath outputPath : String) (options : Option WavToMp3Options)
deriving DecidableEq, Repr

/-- The strict WavToMp3Converter.convert (part_005 lines 135-156): when an
options object is supplied, reject bitrate and quality together, then a
bitrate outside 32..320, then a quality outside 0..9; otherwise (and when no
options object is supplied) invoke the native conversion. -/
def convert (inputPath outputPath : String) (options : Option WavToMp3Options) : TsOutcome :=
  match options with
  | some o =>
    if o.bitrate.isSome ∧ o.quality.isSome then
      .validationError "Cannot specify both bitrate and quality. Please use either bitrate or quality, not both."
    else if o.bitrate.isSome ∧ (o.bitrate.getD 0 < 32 ∨ o.bitrate.getD 0 > 320) then
      .validationError "Bitrate must be between 32 and 320 kbps"
    else if o.quality.isSome ∧ (o.quality.getD 0 < 0 ∨ o.quality.getD 0 > 9) then
      .validationError "Quality must be between 0 (best) and 9 (worst)"
    else .nativeCall inputPath outputPath options
  | none => .nativeCall inputPath outputPath none

end Ts

namespace Ts

/-- Whether a convert outcome reached the native module. -/
def invokesNative : TsOutcome → Bool
  | .nativeCall _ _ _ => true
  | .validationError _ => false

end Ts

/-! ## Concrete fixtures used to evaluate the model -/

/-- An environment in which every fopen, lame_init, lame_init_params and
malloc succeeds, every encode call returns 5 bytes and the flush returns 3. -/
def allOkOracle : LameOracle :=
  { wavOpenOk := true, mp3OpenOk := true, initOk := true, initParamsRes := 0,
    bufAllocOk := true, mp3BufAllocOk := true, encodeRes := fun _ => 5, flushRes := 3 }

/-- The 12-byte RIFF preamble (RIFF tag, file-size field, WAVE tag) of the
sample file. -/
def pre12 : List Nat := riffTag ++ [44, 0, 0, 0] ++ waveTag

/-- The canonical fmt and data chunks of the sample file: 16-byte PCM fmt
payload (format 1, 1 channel, 44100 Hz, 16 bits) and an 8-byte data chunk. -/
def rest40 : List Nat :=
  fmtTag ++ le32 16 ++ [1, 0, 1, 0] ++ le32 44100 ++ le32 88200 ++ [2, 0, 16, 0] ++
    dataTag ++ le32 8 ++ [1, 0, 2, 0, 3, 0, 4, 0]

/-- A minimal valid 44100 Hz mono 16-bit PCM WAV file (52 bytes). -/
def sampleWav : List Nat := pre12 ++ rest40

/-- sampleWav with its bitsPerSample field set to 8. -/
def badBitsWav : List Nat :=
  pre12 ++ fmtTag ++ le32 16 ++ [1, 0, 1, 0] ++ le32 44100 ++ le32 88200 ++
    [2, 0, 8, 0] ++ dataTag ++ le32 8 ++ [1, 0, 2, 0, 3, 0, 4, 0]

/-- A 52-byte stream whose first four bytes are XXXX instead of RIFF, with
plausible values at the fixed offsets the Android path reads (1 channel at 22,
44100 Hz at 24, 16 bits at 34) and 8 sample bytes from offset 44. -/
def notRiffWav : List Nat :=
  [88, 88, 88, 88] ++ List.replicate 18 0 ++ [1, 0] ++ le32 44100 ++
    [0, 0, 0, 0] ++ [2, 0] ++ [16, 0] ++ List.replicate 8 0 ++ [1, 0, 2, 0, 3, 0, 4, 0]

/-- A well-formed irrelevant chunk: tag JUNK, declared length 4, 4 payload
bytes. -/
def junkChunk : List Nat := [74, 85, 78, 75] ++ le32 4 ++ [7, 7, 7, 7]

/-- sampleWav with junkChunk inserted between the WAVE identifier and the fmt
chunk. -/
def insertedWav : List Nat := pre12 ++ junkChunk ++ rest40

/-- The byte string of the path a.aac. -/
def aacPath : List Nat := [97, 46, 97, 97, 99]

/-- An extraction environment in which every step fails. -/
def failExtractor : Android.ExtractorOracle :=
  { extractorNewOk := false, setDataSourceOk := false, hasAudioTrack := false,
    sampleRateKnown := false, sampleRateVal := 0, channelsKnown := false,
    channelsVal := 0, codecCreateOk := false, configureOk := false,
    startOk := false, pcmOpenOk := false, decodedPcm := [] }

/-- An Android audio-conversion environment whose AAC decode fails at the
first step (and whose file-descriptor retry also fails). -/
def failingAacOracle : Android.AudioConvOracle :=
  { aac := { primary := failExtractor, fdOpenOk := false, fstatOk := false,
             fd := failExtractor },
    pcmReopenOk := true, mp3OpenOk := true, lame := allOkOracle }

/-! ## Byte-level lemmas -/

@[simp] theorem bytesAt_length (d : List Nat) (p n : Nat) :
    (bytesAt d p n).length = min n (d.length - p) := by
  simp [bytesAt]

theorem bytesAt_append_right (X d : List Nat) (p n : Nat) :
    bytesAt (X ++ d) (X.length + p) n = bytesAt d p n := by
  simp [bytesAt, List.drop_append]

theorem bytesAt_append_left (X d : List Nat) (p n : Nat) (h : p + n ≤ X.length) :
    bytesAt (X ++ d) p n = bytesAt X p n := by
  unfold bytesAt
  rw [List.drop_append_of_le_length (by omega)]
  rw [List.take_append_of_le_length (by simp; omega)]

theorem drop_append_shift (X d : List Nat) (p : Nat) :
    (X ++ d).drop (X.length + p) = d.drop p := by
  simp [List.drop_append]

theorem leVal_le32 (n : Nat) (h : n < 4294967296) : leVal (le32 n) = n := by
  simp [le32, leVal]
  omega

theorem le32_length (n : Nat) : (le32 n).length = 4 := rfl

theorem bytesAt_prefix (xs ys : List Nat) (n : Nat) (h : xs.length = n) :
    bytesAt (xs ++ ys) 0 n = xs := by
  subst h
  simp [bytesAt, List.take_left]

theorem bytesAt_append_shifted (X d : List Nat) (p q n : Nat) (h : q = X.length + p) :
    bytesAt (X ++ d) q n = bytesAt d p n := by
  subst h
  exact bytesAt_append_right X d p n

/-! ## Chunk-scan lemmas -/

theorem scanChunkAux_fuel_ge (tag : List Nat) :
    ∀ (f f' : Nat) (d : List Nat) (pos : Nat),
      d.length + 8 ≤ 8 * f + pos → d.length + 8 ≤ 8 * f' + pos →
      scanChunkAux f d tag pos = scanChunkAux f' d tag pos := by
  intro f
  induction f with
  | zero =>
    intro f' d pos h _
    cases f' with
    | zero => rfl
    | succ g =>
      simp only [scanChunkAux]
      rw [if_neg (by omega)]
  | succ f ih =>
    intro f' d pos h h'
    cases f' with
    | zero =>
      simp only [scanChunkAux]
      rw [if_neg (by omega)]
    | succ g =>
      simp only [scanChunkAux]
      by_cases hle : pos + 8 ≤ d.length
      · rw [if_pos hle, if_pos hle]
        by_cases htag : bytesAt d pos 4 = tag
        · rw [if_pos htag, if_pos htag]
        · rw [if_neg htag, if_neg htag]
          exact ih g d _ (by omega) (by omega)
      · rw [if_neg hle, if_neg hle]

theorem scanChunk_step (d tag : List Nat) (pos : Nat) (h : pos + 8 ≤ d.length)
    (hne : bytesAt d pos 4 ≠ tag) :
    scanChunk d tag pos = scanChunk d tag (pos + 8 + leVal (bytesAt d (pos + 4) 4)) := by
  unfold scanChunk
  conv_lhs => rw [show d.length + 1 = (d.length) + 1 from rfl]
  simp only [scanChunkAux]
  rw [if_pos h, if_neg hne]
  exact scanChunkAux_fuel_ge tag d.length (d.length + 1) d _ (by omega) (by omega)

theorem scanChunk_found (d tag : List Nat) (pos : Nat) (h : pos + 8 ≤ d.length)
    (heq : bytesAt d pos 4 = tag) :
    scanChunk d tag pos = some (pos + 8, leVal (bytesAt d (pos + 4) 4)) := by
  unfold scanChunk
  simp only [scanChunkAux]
  rw [if_pos h, if_pos heq]

theorem scanChunk_none (d tag : List Nat) (pos : Nat) (h : d.length < pos + 8) :
    scanChunk d tag pos = none := by
  unfold scanChunk
  simp only [scanChunkAux]
  rw [if_neg (by omega)]

theorem scanChunkAux_le (tag : List Nat) :
    ∀ (f : Nat) (d : List Nat) (pos s k : Nat),
      scanChunkAux f d tag pos = some (s, k) → s ≤ d.length := by
  intro f
  induction f with
  | zero => intro d pos s k h; simp [scanChunkAux] at h
  | succ f ih =>
    intro d pos s k h
    simp only [scanChunkAux] at h
    by_cases hle : pos + 8 ≤ d.length
    · rw [if_pos hle] at h
      by_cases htag : bytesAt d pos 4 = tag
      · rw [if_pos htag] at h
        simp at h
        omega
      · rw [if_neg htag] at h
        exact ih d _ s k h
    · rw [if_neg hle] at h
      simp at h

theorem scanChunk_le (d tag : List Nat) (pos s k : Nat)
    (h : scanChunk d tag pos = some (s, k)) : s ≤ d.length :=
  scanChunkAux_le tag _ d pos s k h

theorem scanChunkAux_shift (tag : List Nat) :
    ∀ (f : Nat) (X d : List Nat) (p : Nat),
      d.length + 8 ≤ 8 * f + p →
      scanChunkAux f (X ++ d) tag (X.length + p)
        = (scanChunkAux f d tag p).map (fun r => (X.length + r.1, r.2)) := by
  intro f
  induction f with
  | zero =>
    intro X d p h
    simp [scanChunkAux]
  | succ f ih =>
    intro X d p h
    simp only [scanChunkAux]
    have hlen : (X ++ d).length = X.length + d.length := by simp
    by_cases hle : p + 8 ≤ d.length
    · rw [if_pos (by omega), if_pos hle]
      rw [bytesAt_append_right X d p 4]
      by_cases htag : bytesAt d p 4 = tag
      · rw [if_pos htag, if_pos htag]
        have h4 : X.length + p + 4 = X.length + (p + 4) := by omega
        rw [h4, bytesAt_append_right X d (p + 4) 4]
        simp
        omega
      · rw [if_neg htag, if_neg htag]
        have h4 : X.length + p + 4 = X.length + (p + 4) := by omega
        rw [h4, bytesAt_append_right X d (p + 4) 4]
        have h8 : X.length + p + 8 + leVal (bytesAt d (p + 4) 4)
            = X.length + (p + 8 + leVal (bytesAt d (p + 4) 4)) := by omega
        rw [h8]
        exact ih X d _ (by omega)
    · rw [if_neg (by omega), if_neg hle]
      simp

theorem scanChunk_shift (X d tag : List Nat) (p : Nat) :
    scanChunk (X ++ d) tag (X.length + p)
      = (scanChunk d tag p).map (fun r => (X.length + r.1, r.2)) := by
  unfold scanChunk
  have h1 : scanChunkAux ((X ++ d).length + 1) (X ++ d) tag (X.length + p)
      = (scanChunkAux ((X ++ d).length + 1) d tag p).map (fun r => (X.length + r.1, r.2)) := by
    apply scanChunkAux_shift
    simp
    omega
  rw [h1]
  congr 1
  apply scanChunkAux_fuel_ge
  · simp; omega
  · omega

/-! ## Properties of the iOS encode loop -/

namespace Ios

theorem loopAux_progress_spec :
    ∀ (f : Nat) (oc : LameOracle) (ch total : Nat) (pcm : List Nat) (bp : Nat)
      (hist : List (List Nat)), bp + pcm.length ≤ total →
      (∀ pr ∈ (loopAux f oc ch total pcm bp hist).progress,
          bp ≤ pr.1 ∧ pr.1 ≤ total ∧ pr.2 = total) ∧
      List.Pairwise (fun a b : Nat × Nat => a.1 ≤ b.1)
        (loopAux f oc ch total pcm bp hist).progress := by
  intro f
  induction f with
  | zero => intro oc ch total pcm bp hist _; simp [loopAux]
  | succ f ih =>
    intro oc ch total pcm bp hist h
    simp only [loopAux]
    by_cases h0 : min (bufferSize * ch) (pcm.length / 2) = 0
    · rw [if_pos h0]; simp
    · rw [if_neg h0]
      have hsp : 2 * min (bufferSize * ch) (pcm.length / 2) ≤ pcm.length := by
        have := min_le_right (bufferSize * ch) (pcm.length / 2)
        omega
      by_cases hf : min (bufferSize * ch) (pcm.length / 2) / ch = 0
      · rw [if_pos hf]
        apply ih
        simp
        omega
      · rw [if_neg hf]
        by_cases hr : oc.encodeRes
            (hist ++ [pcm.take (2 * min (bufferSize * ch) (pcm.length / 2))]) < 0
        · rw [if_pos hr]; simp
        · rw [if_neg hr]
          have hrec := ih oc ch total
            (pcm.drop (2 * min (bufferSize * ch) (pcm.length / 2)))
            (bp + 2 * min (bufferSize * ch) (pcm.length / 2))
            (hist ++ [pcm.take (2 * min (bufferSize * ch) (pcm.length / 2))])
            (by simp; omega)
          refine ⟨?_, ?_⟩
          · intro pr hpr
            simp only [List.mem_cons] at hpr
            rcases hpr with hpr | hpr
            · subst hpr
              refine ⟨by omega, by omega, rfl⟩
            · have := hrec.1 pr hpr
              exact ⟨by omega, this.2.1, this.2.2⟩
          · refine List.Pairwise.cons ?_ hrec.2
            intro pr hpr
            exact (hrec.1 pr hpr).1

theorem loopAux_calls_spec :
    ∀ (f : Nat) (oc : LameOracle) (ch total : Nat) (pcm : List Nat) (bp : Nat)
      (hist : List (List Nat)),
      ∀ c ∈ (loopAux f oc ch total pcm bp hist).calls,
        c.entry = (if ch = 1 then EntryKind.encodeBuffer else .encodeBufferInterleaved) ∧
        c.frames = c.shortsRead / ch ∧ c.mp3bufSize = mp3BufferBytes := by
  intro f
  induction f with
  | zero => intro oc ch total pcm bp hist c hc; simp [loopAux] at hc
  | succ f ih =>
    intro oc ch total pcm bp hist c hc
    simp only [loopAux] at hc
    by_cases h0 : min (bufferSize * ch) (pcm.length / 2) = 0
    · rw [if_pos h0] at hc; simp at hc
    · rw [if_neg h0] at hc
      by_cases hf : min (bufferSize * ch) (pcm.length / 2) / ch = 0
      · rw [if_pos hf] at hc
        exact ih oc ch total _ bp hist c hc
      · rw [if_neg hf] at hc
        by_cases hr : oc.encodeRes
            (hist ++ [pcm.take (2 * min (bufferSize * ch) (pcm.length / 2))]) < 0
        · rw [if_pos hr] at hc
          simp at hc
          subst hc
          exact ⟨rfl, rfl, rfl⟩
        · rw [if_neg hr] at hc
          simp only [List.mem_cons] at hc
          rcases hc with hc | hc
          · subst hc
            exact ⟨rfl, rfl, rfl⟩
          · exact ih oc ch total _ _ _ c hc

theorem loopAux_total_bp_irrel :
    ∀ (f : Nat) (oc : LameOracle) (ch t1 t2 : Nat) (pcm : List Nat) (bp1 bp2 : Nat)
      (hist : List (List Nat)),
      (loopAux f oc ch t1 pcm bp1 hist).calls = (loopAux f oc ch t2 pcm bp2 hist).calls ∧
      (loopAux f oc ch t1 pcm bp1 hist).outBytes = (loopAux f oc ch t2 pcm bp2 hist).outBytes ∧
      (loopAux f oc ch t1 pcm bp1 hist).failed = (loopAux f oc ch t2 pcm bp2 hist).failed := by
  intro f
  induction f with
  | zero => intro oc ch t1 t2 pcm bp1 bp2 hist; exact ⟨rfl, rfl, rfl⟩
  | succ f ih =>
    intro oc ch t1 t2 pcm bp1 bp2 hist
    simp only [loopAux]
    by_cases h0 : min (bufferSize * ch) (pcm.length / 2) = 0
    · rw [if_pos h0]
      rw [if_pos h0]
      exact ⟨rfl, rfl, rfl⟩
    · rw [if_neg h0]
      rw [if_neg h0]
      by_cases hf : min (bufferSize * ch) (pcm.length / 2) / ch = 0
      · rw [if_pos hf]
        rw [if_pos hf]
        exact ih oc ch t1 t2 _ bp1 bp2 hist
      · rw [if_neg hf]
        rw [if_neg hf]
        by_cases hr : oc.encodeRes
            (hist ++ [pcm.take (2 * min (bufferSize * ch) (pcm.length / 2))]) < 0
        · rw [if_pos hr]
          rw [if_pos hr]
          exact ⟨rfl, rfl, rfl⟩
        · rw [if_neg hr]
          rw [if_neg hr]
          have := ih oc ch t1 t2
            (pcm.drop (2 * min (bufferSize * ch) (pcm.length / 2)))
            (bp1 + 2 * min (bufferSize * ch) (pcm.length / 2))
            (bp2 + 2 * min (bufferSize * ch) (pcm.length / 2))
            (hist ++ [pcm.take (2 * min (bufferSize * ch) (pcm.length / 2))])
          refine ⟨?_, ?_, ?_⟩ <;> simp only [this.1, this.2.1, this.2.2]

theorem loop_progress_spec (oc : LameOracle) (ch total : Nat) (pcm : List Nat)
    (bp : Nat) (h : bp + pcm.length ≤ total) :
    (∀ pr ∈ (loop oc ch total pcm bp).progress,
        bp ≤ pr.1 ∧ pr.1 ≤ total ∧ pr.2 = total) ∧
    List.Pairwise (fun a b : Nat × Nat => a.1 ≤ b.1) (loop oc ch total pcm bp).progress :=
  loopAux_progress_spec _ oc ch total pcm bp [] h

theorem loop_total_bp_irrel (oc : LameOracle) (ch t1 t2 : Nat) (pcm : List Nat)
    (bp1 bp2 : Nat) :
    (loop oc ch t1 pcm bp1).calls = (loop oc ch t2 pcm bp2).calls ∧
    (loop oc ch t1 pcm bp1).outBytes = (loop oc ch t2 pcm bp2).outBytes ∧
    (loop oc ch t1 pcm bp1).failed = (loop oc ch t2 pcm bp2).failed :=
  loopAux_total_bp_irrel _ oc ch t1 t2 pcm bp1 bp2 []

theorem parseWavHeader_dataStart_le (d : List Nat) (info : WavHeaderInfo)
    (h : parseWavHeader d = .ok info) : info.dataStart ≤ d.length := by
  unfold parseWavHeader at h
  by_cases h1 : bytesAt d 0 4 ≠ riffTag
  · rw [if_pos h1] at h; exact absurd h (by simp)
  rw [if_neg h1] at h
  by_cases h2 : bytesAt d 8 4 ≠ waveTag
  · rw [if_pos h2] at h; exact absurd h (by simp)
  rw [if_neg h2] at h
  rcases hf : scanChunk d fmtTag 12 with _ | ⟨fp, fsz⟩
  · rw [hf] at h; exact absurd h (by simp)
  rw [hf] at h
  dsimp only at h
  rcases hd : scanChunk d dataTag (fp + if fsz > 16 then fsz else 16) with _ | ⟨dp, dsz⟩
  · rw [hd] at h; exact absurd h (by simp)
  rw [hd] at h
  simp only [Except.ok.injEq] at h
  have : info.dataStart = dp := by rw [← h]
  rw [this]
  exact scanChunk_le d dataTag _ dp dsz hd

theorem convert_progress_cases (d : List Nat) (opts : Option IosOptions)
    (oc : LameOracle) :
    (convertWavToMp3 d opts oc).progress = [] ∨
    ∃ info, parseWavHeader d = .ok info ∧
      (convertWavToMp3 d opts oc).progress
        = (loop oc info.channels.toNat d.length (d.drop info.dataStart)
            info.dataStart).progress := by
  unfold convertWavToMp3
  by_cases ho : ¬ (oc.wavOpenOk = true ∧ oc.mp3OpenOk = true)
  · rw [if_pos ho]
    exact Or.inl rfl
  rw [if_neg ho]
  rcases hp : parseWavHeader d with e | info
  · exact Or.inl rfl
  dsimp only
  by_cases h1 : info.audioFormat ≠ 1
  · rw [if_pos h1]
    exact Or.inl rfl
  rw [if_neg h1]
  by_cases h2 : info.bitsPerSample ≠ 16
  · rw [if_pos h2]
    exact Or.inl rfl
  rw [if_neg h2]
  by_cases h3 : ¬ oc.initOk = true
  · rw [if_pos h3]
    exact Or.inl rfl
  rw [if_neg h3]
  by_cases h4 : oc.initParamsRes < 0
  · rw [if_pos h4]
    exact Or.inl rfl
  rw [if_neg h4]
  by_cases h5 : ¬ (oc.bufAllocOk = true ∧ oc.mp3BufAllocOk = true)
  · rw [if_pos h5]
    exact Or.inl rfl
  rw [if_neg h5]
  by_cases h6 : (loop oc info.channels.toNat d.length (d.drop info.dataStart)
      info.dataStart).failed = true
  · rw [if_pos h6]
    exact Or.inr ⟨info, rfl, rfl⟩
  · rw [if_neg h6]
    exact Or.inr ⟨info, rfl, rfl⟩

theorem convert_congr (d1 d2 : List Nat) (opts : Option IosOptions)
    (oc : LameOracle) (info1 info2 : WavHeaderInfo)
    (hp1 : parseWavHeader d1 = .ok info1) (hp2 : parseWavHeader d2 = .ok info2)
    (haf : info1.audioFormat = info2.audioFormat)
    (hch : info1.channels = info2.channels)
    (hbits : info1.bitsPerSample = info2.bitsPerSample)
    (hpcm : d1.drop info1.dataStart = d2.drop info2.dataStart) :
    (convertWavToMp3 d1 opts oc).calls = (convertWavToMp3 d2 opts oc).calls ∧
    (convertWavToMp3 d1 opts oc).outBytes = (convertWavToMp3 d2 opts oc).outBytes ∧
    (convertWavToMp3 d1 opts oc).outcome = (convertWavToMp3 d2 opts oc).outcome := by
  unfold convertWavToMp3
  by_cases ho : ¬ (oc.wavOpenOk = true ∧ oc.mp3OpenOk = true)
  · simp only [if_pos ho]
    refine ⟨?_, ?_, ?_⟩ <;> trivial
  simp only [if_neg ho]
  rw [hp1, hp2]
  dsimp only
  rw [haf, hbits, hch, hpcm]
  by_cases h1 : info2.audioFormat ≠ 1
  · simp only [if_pos h1]
    refine ⟨?_, ?_, ?_⟩ <;> trivial
  simp only [if_neg h1]
  by_cases h2 : info2.bitsPerSample ≠ 16
  · simp only [if_pos h2]
    refine ⟨?_, ?_, ?_⟩ <;> trivial
  simp only [if_neg h2]
  by_cases h3 : ¬ oc.initOk = true
  · simp only [if_pos h3]
    refine ⟨?_, ?_, ?_⟩ <;> trivial
  simp only [if_neg h3]
  by_cases h4 : oc.initParamsRes < 0
  · simp only [if_pos h4]
    refine ⟨?_, ?_, ?_⟩ <;> trivial
  simp only [if_neg h4]
  by_cases h5 : ¬ (oc.bufAllocOk = true ∧ oc.mp3BufAllocOk = true)
  · simp only [if_pos h5]
    refine ⟨?_, ?_, ?_⟩ <;> trivial
  simp only [if_neg h5]
  have hl := loop_total_bp_irrel oc info2.channels.toNat d1.length d2.length
    (d2.drop info2.dataStart) info1.dataStart info2.dataStart
  rw [hl.1, hl.2.1, hl.2.2]
  by_cases hfail : (loop oc info2.channels.toNat d2.length (d2.drop info2.dataStart)
      info2.dataStart).failed = true
  · simp only [if_pos hfail]
    refine ⟨?_, ?_, ?_⟩ <;> trivial
  · simp only [if_neg hfail]
    refine ⟨?_, ?_, ?_⟩ <;> trivial

theorem parseWavHeader_insert_chunk
    (pre rest tag payload : List Nat) (info : WavHeaderInfo)
    (hpre : pre.length = 12) (htag : tag.length = 4)
    (hft : tag ≠ fmtTag) (hdt : tag ≠ dataTag)
    (hlen : payload.length < 4294967296)
    (hbase : parseWavHeader (pre ++ rest) = .ok info) :
    parseWavHeader (pre ++ (tag ++ le32 payload.length ++ payload) ++ rest)
      = .ok { info with dataStart := info.dataStart + (8 + payload.length) } ∧
    (pre ++ (tag ++ le32 payload.length ++ payload) ++ rest).drop
        (info.dataStart + (8 + payload.length)) = (pre ++ rest).drop info.dataStart := by
  have hchl : (tag ++ le32 payload.length ++ payload).length = 8 + payload.length := by
    simp [le32, htag]
    omega
  have hlen_ins : (pre ++ (tag ++ le32 payload.length ++ payload) ++ rest).length
      = 20 + payload.length + rest.length := by
    rw [List.length_append, List.length_append, hpre, hchl]
    omega
  -- Decompose the successful parse of the base file.
  have hbase' := hbase
  unfold parseWavHeader at hbase'
  by_cases h1 : bytesAt (pre ++ rest) 0 4 ≠ riffTag
  · rw [if_pos h1] at hbase'
    exact absurd hbase' (by simp)
  rw [if_neg h1] at hbase'
  push_neg at h1
  by_cases h2 : bytesAt (pre ++ rest) 8 4 ≠ waveTag
  · rw [if_pos h2] at hbase'
    exact absurd hbase' (by simp)
  rw [if_neg h2] at hbase'
  push_neg at h2
  rcases hfscan : scanChunk (pre ++ rest) fmtTag 12 with _ | ⟨fp, fsz⟩
  · rw [hfscan] at hbase'
    exact absurd hbase' (by simp)
  rw [hfscan] at hbase'
  dsimp only at hbase'
  generalize hm : (if fsz > 16 then fsz else 16 : Nat) = m at hbase'
  rcases hdscan : scanChunk (pre ++ rest) dataTag (fp + m) with _ | ⟨dp, dsz⟩
  · rw [hdscan] at hbase'
    exact absurd hbase' (by simp)
  rw [hdscan] at hbase'
  simp only [Except.ok.injEq] at hbase'
  -- Express the base fmt and data scans as scans of the rest suffix.
  have hshift_f : scanChunk (pre ++ rest) fmtTag 12
      = (scanChunk rest fmtTag 0).map (fun r => (12 + r.1, r.2)) := by
    have h := scanChunk_shift pre rest fmtTag 0
    rw [hpre] at h
    simpa using h
  rw [hshift_f] at hfscan
  obtain ⟨⟨fp0, fsz0⟩, hrf, hfe⟩ := Option.map_eq_some'.mp hfscan
  simp only [Prod.mk.injEq] at hfe
  obtain ⟨hfp, hfsz⟩ := hfe
  subst hfsz
  subst hfp
  have e1 : 12 + fp0 + m = pre.length + (fp0 + m) := by
    rw [hpre]
    omega
  rw [e1, scanChunk_shift pre rest dataTag (fp0 + m)] at hdscan
  obtain ⟨⟨dp0, dsz0⟩, hrd, hde⟩ := Option.map_eq_some'.mp hdscan
  simp only [Prod.mk.injEq] at hde
  obtain ⟨hdp, hdsz⟩ := hde
  subst hdsz
  rw [hpre] at hdp
  subst hdp
  -- The inserted file still carries the RIFF and WAVE markers.
  have hr_ins : bytesAt (pre ++ (tag ++ le32 payload.length ++ payload) ++ rest) 0 4
      = riffTag := by
    rw [List.append_assoc,
      bytesAt_append_left pre _ 0 4 (by simp [hpre]),
      ← bytesAt_append_left pre rest 0 4 (by simp [hpre])]
    exact h1
  have hw_ins : bytesAt (pre ++ (tag ++ le32 payload.length ++ payload) ++ rest) 8 4
      = waveTag := by
    rw [List.append_assoc,
      bytesAt_append_left pre _ 8 4 (by simp [hpre]),
      ← bytesAt_append_left pre rest 8 4 (by simp [hpre])]
    exact h2
  -- The fmt scan of the inserted file reads the junk tag and length first.
  have hc0 : bytesAt (pre ++ (tag ++ le32 payload.length ++ payload) ++ rest) 12 4
      = tag := by
    rw [List.append_assoc, bytesAt_append_shifted pre _ 0 12 4 (by rw [hpre]),
      List.append_assoc, List.append_assoc]
    exact bytesAt_prefix tag _ 4 htag
  have hsz : bytesAt (pre ++ (tag ++ le32 payload.length ++ payload) ++ rest) (12 + 4) 4
      = le32 payload.length := by
    rw [List.append_assoc, bytesAt_append_shifted pre _ 4 (12 + 4) 4 (by rw [hpre]),
      List.append_assoc, List.append_assoc,
      bytesAt_append_shifted tag _ 0 4 4 (by rw [htag])]
    exact bytesAt_prefix (le32 payload.length) _ 4 (le32_length _)
  have hscan_ins_f : scanChunk (pre ++ (tag ++ le32 payload.length ++ payload) ++ rest)
      fmtTag 12 = some (20 + payload.length + fp0, fsz0) := by
    have hstep := scanChunk_step (pre ++ (tag ++ le32 payload.length ++ payload) ++ rest)
      fmtTag 12 (by rw [hlen_ins]; omega) (by rw [hc0]; exact hft)
    rw [hstep, hsz, leVal_le32 _ hlen]
    have e2 : 12 + 8 + payload.length
        = (pre ++ (tag ++ le32 payload.length ++ payload)).length + 0 := by
      rw [List.length_append, hpre, hchl]
      omega
    rw [e2, scanChunk_shift (pre ++ (tag ++ le32 payload.length ++ payload)) rest fmtTag 0,
      hrf]
    simp only [Option.map_some', Option.some.injEq, Prod.mk.injEq]
    refine ⟨?_, trivial⟩
    rw [List.length_append, hpre, hchl]
    omega
  have hscan_ins_d : scanChunk (pre ++ (tag ++ le32 payload.length ++ payload) ++ rest)
      dataTag (20 + payload.length + fp0 + m) = some (20 + payload.length + dp0, dsz0) := by
    have e3 : 20 + payload.length + fp0 + m
        = (pre ++ (tag ++ le32 payload.length ++ payload)).length + (fp0 + m) := by
      rw [List.length_append, hpre, hchl]
      omega
    rw [e3, scanChunk_shift (pre ++ (tag ++ le32 payload.length ++ payload)) rest dataTag
      (fp0 + m), hrd]
    simp only [Option.map_some', Option.some.injEq, Prod.mk.injEq]
    refine ⟨?_, trivial⟩
    rw [List.length_append, hpre, hchl]
    omega
  -- The fmt fields of the inserted file are read from the same rest bytes.
  have hreadF : ∀ k n, bytesAt (pre ++ (tag ++ le32 payload.length ++ payload) ++ rest)
      (20 + payload.length + fp0 + k) n = bytesAt (pre ++ rest) (12 + fp0 + k) n := by
    intro k n
    have eL : 20 + payload.length + fp0 + k
        = (pre ++ (tag ++ le32 payload.length ++ payload)).length + (fp0 + k) := by
      rw [List.length_append, hpre, hchl]
      omega
    have eR : 12 + fp0 + k = pre.length + (fp0 + k) := by
      rw [hpre]
      omega
    rw [eL, bytesAt_append_right, eR, bytesAt_append_right]
  have hrd0 : bytesAt (pre ++ (tag ++ le32 payload.length ++ payload) ++ rest)
      (20 + payload.length + fp0) 2 = bytesAt (pre ++ rest) (12 + fp0) 2 := by
    simpa using hreadF 0 2
  constructor
  · -- The parse of the inserted file.
    unfold parseWavHeader
    rw [if_neg (by rw [hr_ins]; simp), if_neg (by rw [hw_ins]; simp), hscan_ins_f]
    dsimp only
    rw [hm, hscan_ins_d]
    dsimp only
    rw [hrd0, hreadF 2 2, hreadF 4 4, hreadF 14 2, ← hbase']
    simp only [Except.ok.injEq, WavHeaderInfo.mk.injEq]
    exact ⟨trivial, trivial, trivial, trivial, by omega, trivial⟩
  · -- The data payload of the inserted file is the base payload.
    have hds : info.dataStart = 12 + dp0 := by rw [← hbase']
    have e5 : info.dataStart + (8 + payload.length)
        = (pre ++ (tag ++ le32 payload.length ++ payload)).length + dp0 := by
      rw [hds, List.length_append, hpre, hchl]
      omega
    have e6 : info.dataStart = pre.length + dp0 := by
      rw [hds, hpre]
    rw [e5, drop_append_shift, e6, drop_append_shift]

theorem convert_events_cases (d : List Nat) (opts : Option IosOptions)
    (oc : LameOracle) :
    (convertWavToMp3 d opts oc).events = [] ∨
    (convertWavToMp3 d opts oc).events = [.closeWav] ∨
    (convertWavToMp3 d opts oc).events = [.closeMp3] ∨
    (convertWavToMp3 d opts oc).events = [.closeWav, .closeMp3] ∨
    (convertWavToMp3 d opts oc).events = [.lameInit, .lameClose, .closeWav, .closeMp3] := by
  unfold convertWavToMp3
  by_cases ho : ¬ (oc.wavOpenOk = true ∧ oc.mp3OpenOk = true)
  · rw [if_pos ho]
    cases hw : oc.wavOpenOk <;> cases hm : oc.mp3OpenOk <;> simp [hw, hm]
  rw [if_neg ho]
  rcases hp : parseWavHeader d with e | info
  · right; right; right; left; rfl
  dsimp only
  split_ifs <;> simp

end Ios

/-! ## Properties of the Android encode loop -/

namespace Android

theorem androidLoopAux_calls_spec :
    ∀ (f : Nat) (oc : LameOracle) (ch : Nat) (pcm : List Nat) (hist : List (List Nat)),
      ∀ c ∈ (loopAux f oc ch pcm hist).calls,
        c.entry = (if ch = 1 then EntryKind.encodeBuffer else .encodeBufferInterleaved) ∧
        c.frames = c.shortsRead / ch ∧ c.mp3bufSize = mp3BufferBytes := by
  intro f
  induction f with
  | zero => intro oc ch pcm hist c hc; simp [loopAux] at hc
  | succ f ih =>
    intro oc ch pcm hist c hc
    simp only [loopAux] at hc
    by_cases h0 : min (bufferSize * ch) (pcm.length / 2) = 0
    · rw [if_pos h0] at hc; simp at hc
    · rw [if_neg h0] at hc
      by_cases hr : oc.encodeRes
          (hist ++ [pcm.take (2 * min (bufferSize * ch) (pcm.length / 2))]) < 0
      · rw [if_pos hr] at hc
        simp at hc
        subst hc
        refine ⟨rfl, ?_, rfl⟩
        by_cases hch : ch = 1
        · simp [hch]
        · simp [hch]
      · rw [if_neg hr] at hc
        simp only [List.mem_cons] at hc
        rcases hc with hc | hc
        · subst hc
          refine ⟨rfl, ?_, rfl⟩
          by_cases hch : ch = 1
          · simp [hch]
          · simp [hch]
        · exact ih oc ch _ _ c hc

set_option maxHeartbeats 1000000 in
theorem decodeAacToPcmWithFd_steps (oc : AacOracle) :
    (decodeAacToPcmWithFd oc).steps = [DecodeStep.fdAttempt] := by
  unfold decodeAacToPcmWithFd
  split_ifs <;> rfl

theorem encodePipeline_decodeSteps (ch : Nat) (pcm : List Nat) (b q : Int)
    (oc : LameOracle) (steps : List DecodeStep) :
    (encodePipeline ch pcm b q oc steps).decodeSteps = steps := by
  unfold encodePipeline
  by_cases h1 : ¬ oc.initOk = true
  · rw [if_pos h1]
  · rw [if_neg h1]
    dsimp only
    by_cases h2 : oc.initParamsRes < 0
    · rw [if_pos h2]
    · rw [if_neg h2]
      by_cases h3 : (loop oc ch pcm).failed = true
      · rw [if_pos h3]
      · rw [if_neg h3]

theorem encodePipeline_events (ch : Nat) (pcm : List Nat) (b q : Int)
    (oc : LameOracle) (steps : List DecodeStep) :
    (encodePipeline ch pcm b q oc steps).events = [.closeWav, .closeMp3] ∨
    (encodePipeline ch pcm b q oc steps).events
      = [.lameInit, .lameClose, .closeWav, .closeMp3] := by
  unfold encodePipeline
  by_cases h1 : ¬ oc.initOk = true
  · rw [if_pos h1]
    exact Or.inl rfl
  · rw [if_neg h1]
    dsimp only
    by_cases h2 : oc.initParamsRes < 0
    · rw [if_pos h2]
      exact Or.inr rfl
    · rw [if_neg h2]
      by_cases h3 : (loop oc ch pcm).failed = true
      · rw [if_pos h3]
        exact Or.inr rfl
      · rw [if_neg h3]
        exact Or.inr rfl

theorem nativeConvertWavToMp3_events_cases (d : List Nat) (b q : Int)
    (oc : LameOracle) :
    (nativeConvertWavToMp3 d b q oc).events = [] ∨
    (nativeConvertWavToMp3 d b q oc).events = [.closeWav, .closeMp3] ∨
    (nativeConvertWavToMp3 d b q oc).events
      = [.lameInit, .lameClose, .closeWav, .closeMp3] := by
  unfold nativeConvertWavToMp3
  by_cases h : ¬ (oc.wavOpenOk = true ∧ oc.mp3OpenOk = true)
  · rw [if_pos h]
    exact Or.inl rfl
  · rw [if_neg h]
    dsimp only
    rcases encodePipeline_events (readWavHeader d).1.toNat (d.drop 44) b q oc []
      with he | he
    · exact Or.inr (Or.inl he)
    · exact Or.inr (Or.inr he)

theorem audio_decodeSteps_cases (path d : List Nat) (b q : Int)
    (oc : AudioConvOracle) :
    (nativeConvertAudioToMp3 path d b q oc).decodeSteps
      = (decodeAacToPcm oc.aac).steps ∨
    (nativeConvertAudioToMp3 path d b q oc).decodeSteps = [] := by
  unfold nativeConvertAudioToMp3
  dsimp only
  by_cases h1 : getFileFormat path = aacExt
  · rw [if_pos h1]
    by_cases h2 : (decodeAacToPcm oc.aac).result ≠ 0
    · rw [if_pos h2]
      exact Or.inl rfl
    · rw [if_neg h2]
      by_cases h3 : ¬ (oc.pcmReopenOk = true ∧ oc.mp3OpenOk = true)
      · rw [if_pos h3]
        exact Or.inl rfl
      · rw [if_neg h3]
        exact Or.inl (encodePipeline_decodeSteps _ _ b q oc.lame _)
  · rw [if_neg h1]
    by_cases h4 : getFileFormat path = wavExt
    · rw [if_pos h4]
      by_cases h5 : ¬ (oc.lame.wavOpenOk = true ∧ oc.lame.mp3OpenOk = true)
      · rw [if_pos h5]
        exact Or.inr rfl
      · rw [if_neg h5]
        exact Or.inr (encodePipeline_decodeSteps _ _ b q oc.lame _)
    · rw [if_neg h4]
      by_cases h5 : ¬ (oc.lame.wavOpenOk = true ∧ oc.lame.mp3OpenOk = true)
      · rw [if_pos h5]
        exact Or.inr rfl
      · rw [if_neg h5]
        exact Or.inr (encodePipeline_decodeSteps _ _ b q oc.lame _)

theorem decodeAacToPcm_steps (oc : AacOracle) :
    (decodeAacToPcm oc).steps = [DecodeStep.primaryAttempt] ∨
    (decodeAacToPcm oc).steps = [DecodeStep.primaryAttempt, DecodeStep.fdAttempt] := by
  unfold decodeAacToPcm
  by_cases h1 : ¬ oc.primary.extractorNewOk = true
  · left
    rw [if_pos h1]
  · rw [if_neg h1]
    by_cases h2 : ¬ oc.primary.setDataSourceOk = true
    · rw [if_pos h2]
      right
      simp [decodeAacToPcmWithFd_steps]
    · rw [if_neg h2]
      left
      split_ifs <;> rfl

end Android

/-! ## Claim theorems -/

/-- Claim C1, amended: for every input byte stream whose first 4 bytes are
not the ASCII literal RIFF, the iOS convert operation (once both files open)
rejects with the WAV_ERROR FormatError code for the missing RIFF header and
never reaches an encode call; the Android native WAV path performs no such
check (see the counterexample). -/
theorem c1_ios_rejects_non_riff (d : List Nat) (opts : Option IosOptions)
    (oc : LameOracle) (hw : oc.wavOpenOk = true) (hm : oc.mp3OpenOk = true)
    (hriff : bytesAt d 0 4 ≠ riffTag) :
    (Ios.convertWavToMp3 d opts oc).outcome = .rejected .wavNotRiff ∧
    isFormatError .wavNotRiff = true ∧
    (Ios.convertWavToMp3 d opts oc).calls = [] ∧
    REv.lameInit ∉ (Ios.convertWavToMp3 d opts oc).events := by
  have hparse : Ios.parseWavHeader d = .error .notRiff := by
    unfold Ios.parseWavHeader
    rw [if_pos hriff]
  unfold Ios.convertWavToMp3
  rw [if_neg (by simp [hw, hm]), hparse]
  exact ⟨rfl, rfl, rfl, by simp [parseReject]⟩

/-- Claim C1, witness: a concrete stream starting with XXXX is rejected by the
iOS path with the missing-RIFF code and without encode calls. -/
theorem c1_ios_rejects_non_riff_witness :
    bytesAt notRiffWav 0 4 ≠ riffTag ∧
    (Ios.convertWavToMp3 notRiffWav none allOkOracle).outcome = .rejected .wavNotRiff ∧
    (Ios.convertWavToMp3 notRiffWav none allOkOracle).calls = [] := by
  have h := c1_ios_rejects_non_riff notRiffWav none allOkOracle rfl rfl (by decide)
  exact ⟨by decide, h.1, h.2.2.1⟩

/-- Claim C1, counterexample: the same XXXX-headed stream is converted
successfully by the Android nativeConvertWavToMp3 entry point, which feeds
its bytes to the encoder, so the claim as stated fails on the Android convert
path. -/
theorem c1_counterexample_android_accepts_non_riff :
    bytesAt notRiffWav 0 4 ≠ riffTag ∧
    (Android.nativeConvertWavToMp3 notRiffWav (-1) (-1) allOkOracle).result = 0 ∧
    (Android.nativeConvertWavToMp3 notRiffWav (-1) (-1) allOkOracle).calls ≠ [] := by
  refine ⟨by decide, by decide, by decide⟩

/-- Claim C2, amended: for every WAV input whose fmt chunk declares an
audioFormatTag different from 1 or a bitsPerSample different from 16, the iOS
convert operation rejects with a WAV_ERROR FormatError code and never reaches
an encode call; the Android native WAV path reads bitsPerSample but never
validates it (see the counterexample). -/
theorem c2_ios_rejects_unsupported_format (d : List Nat) (opts : Option IosOptions)
    (oc : LameOracle) (info : WavHeaderInfo)
    (hw : oc.wavOpenOk = true) (hm : oc.mp3OpenOk = true)
    (hp : Ios.parseWavHeader d = .ok info)
    (hbad : info.audioFormat ≠ 1 ∨ info.bitsPerSample ≠ 16) :
    ((Ios.convertWavToMp3 d opts oc).outcome = .rejected .wavBadFormat ∨
     (Ios.convertWavToMp3 d opts oc).outcome = .rejected .wavBadBits) ∧
    isFormatError .wavBadFormat = true ∧ isFormatError .wavBadBits = true ∧
    (Ios.convertWavToMp3 d opts oc).calls = [] ∧
    REv.lameInit ∉ (Ios.convertWavToMp3 d opts oc).events := by
  unfold Ios.convertWavToMp3
  rw [if_neg (by simp [hw, hm]), hp]
  dsimp only
  by_cases h1 : info.audioFormat ≠ 1
  · rw [if_pos h1]
    exact ⟨Or.inl rfl, rfl, rfl, rfl, by simp⟩
  · rw [if_neg h1]
    have h2 : info.bitsPerSample ≠ 16 := by tauto
    rw [if_pos h2]
    exact ⟨Or.inr rfl, rfl, rfl, rfl, by simp⟩

/-- Claim C2, witness: a concrete 8-bit WAV file parses to bitsPerSample 8
and is rejected by the iOS path without encode calls. -/
theorem c2_ios_rejects_unsupported_format_witness :
    Ios.parseWavHeader badBitsWav = .ok ⟨1, 1, 44100, 8, 44, 8⟩ ∧
    ((Ios.convertWavToMp3 badBitsWav none allOkOracle).outcome = .rejected .wavBadFormat ∨
     (Ios.convertWavToMp3 badBitsWav none allOkOracle).outcome = .rejected .wavBadBits) ∧
    (Ios.convertWavToMp3 badBitsWav none allOkOracle).calls = [] := by
  have h := c2_ios_rejects_unsupported_format badBitsWav none allOkOracle
    ⟨1, 1, 44100, 8, 44, 8⟩ rfl rfl (by decide) (by decide)
  exact ⟨by decide, h.1, h.2.2.2.1⟩

/-- Claim C2, counterexample: the Android native WAV path reads bitsPerSample
8 from the same file yet converts it successfully and feeds its sample bytes
to the encoder, so the claim as stated fails on the Android convert path. -/
theorem c2_counterexample_android_accepts_bad_bit_depth :
    (Android.readWavHeader badBitsWav).2.2 = 8 ∧
    (Android.nativeConvertWavToMp3 badBitsWav (-1) (-1) allOkOracle).result = 0 ∧
    (Android.nativeConvertWavToMp3 badBitsWav (-1) (-1) allOkOracle).calls ≠ [] := by
  refine ⟨by decide, by decide, by decide⟩

/-- Claim C3, amended: on the Android native path an omitted option (passed
as -1 by the bridge) selects bitrate 128 and quality 5, with VBR off; the iOS
path instead falls back to bitrate 32 and quality 7 when the corresponding
option is absent (see the counterexample). -/
theorem c3_default_bitrate_quality (b q : Int) (o : IosOptions) :
    (b = -1 → (Android.applyOptions b q).brate = 128) ∧
    (q = -1 → (Android.applyOptions b q).quality = 5) ∧
    (Android.applyOptions b q).vbrOff = true ∧
    (o.bitrate = none → (Ios.applyOptions (some o)).brate = 32) ∧
    (o.quality = none → (Ios.applyOptions (some o)).quality = 7) ∧
    Ios.applyOptions none = ⟨32, 7, true⟩ := by
  refine ⟨?_, ?_, rfl, ?_, ?_, rfl⟩
  · intro h
    simp [Android.applyOptions, h]
  · intro h
    simp [Android.applyOptions, h]
  · intro h
    simp [Ios.applyOptions, h]
  · intro h
    simp [Ios.applyOptions, h]

/-- Claim C3, witness: both options omitted give the Android defaults 128/5
and the iOS defaults 32/7. -/
theorem c3_default_bitrate_quality_witness :
    (Android.applyOptions (-1) (-1)).brate = 128 ∧
    (Android.applyOptions (-1) (-1)).quality = 5 ∧
    (Ios.applyOptions (some ⟨none, none⟩)).brate = 32 ∧
    (Ios.applyOptions (some ⟨none, none⟩)).quality = 7 := by
  have h := c3_default_bitrate_quality (-1) (-1) ⟨none, none⟩
  exact ⟨h.1 rfl, h.2.1 rfl, h.2.2.2.1 rfl, h.2.2.2.2.1 rfl⟩

/-- Claim C3, counterexample: an iOS conversion with no options configures
the encoder with bitrate 32 and quality 7, not 128 and 5 as the claim
states. -/
theorem c3_counterexample_ios_defaults :
    (Ios.convertWavToMp3 sampleWav none allOkOracle).config = some ⟨32, 7, true⟩ ∧
    ¬ ((32 : Int) = 128) ∧ ¬ ((7 : Int) = 5) := by
  refine ⟨by decide, by decide, by decide⟩

/-- Claim C5: in the strict TypeScript converter, supplying both bitrate and
quality, a bitrate outside 32..320, or a quality outside 0..9 each raise a
validation Error, and in each case the native module is not invoked. -/
theorem c5_strict_option_validation (i o : String) (b q : Int)
    (bopt qopt : Option Int) :
    (bopt.isSome = true → qopt.isSome = true →
      Ts.convert i o (some ⟨bopt, qopt⟩) = .validationError
        "Cannot specify both bitrate and quality. Please use either bitrate or quality, not both." ∧
      Ts.invokesNative (Ts.convert i o (some ⟨bopt, qopt⟩)) = false) ∧
    ((b < 32 ∨ b > 320) →
      Ts.convert i o (some ⟨some b, none⟩) = .validationError
        "Bitrate must be between 32 and 320 kbps" ∧
      Ts.invokesNative (Ts.convert i o (some ⟨some b, none⟩)) = false) ∧
    ((q < 0 ∨ q > 9) →
      Ts.convert i o (some ⟨none, some q⟩) = .validationError
        "Quality must be between 0 (best) and 9 (worst)" ∧
      Ts.invokesNative (Ts.convert i o (some ⟨none, some q⟩)) = false) := by
  refine ⟨?_, ?_, ?_⟩
  · intro hb hq
    have : Ts.convert i o (some ⟨bopt, qopt⟩) = .validationError
        "Cannot specify both bitrate and quality. Please use either bitrate or quality, not both." := by
      unfold Ts.convert
      dsimp only
      rw [if_pos ⟨hb, hq⟩]
    exact ⟨this, by rw [this]; rfl⟩
  · intro hb
    have : Ts.convert i o (some ⟨some b, none⟩) = .validationError
        "Bitrate must be between 32 and 320 kbps" := by
      unfold Ts.convert
      dsimp only
      rw [if_neg (by simp)]
      rw [if_pos (by simpa using hb)]
    exact ⟨this, by rw [this]; rfl⟩
  · intro hq
    have : Ts.convert i o (some ⟨none, some q⟩) = .validationError
        "Quality must be between 0 (best) and 9 (worst)" := by
      unfold Ts.convert
      dsimp only
      rw [if_neg (by simp)]
      rw [if_neg (by simp)]
      rw [if_pos (by simpa using hq)]
    exact ⟨this, by rw [this]; rfl⟩

/-- Claim C5, witness: bitrate 192 with quality 2, bitrate 16 alone, and
quality 10 alone are each rejected without invoking the native module. -/
theorem c5_strict_option_validation_witness :
    Ts.convert "in.wav" "out.mp3" (some ⟨some 192, some 2⟩) = .validationError
      "Cannot specify both bitrate and quality. Please use either bitrate or quality, not both." ∧
    Ts.convert "in.wav" "out.mp3" (some ⟨some 16, none⟩) = .validationError
      "Bitrate must be between 32 and 320 kbps" ∧
    Ts.convert "in.wav" "out.mp3" (some ⟨none, some 10⟩) = .validationError
      "Quality must be between 0 (best) and 9 (worst)" ∧
    Ts.invokesNative (Ts.convert "in.wav" "out.mp3" (some ⟨some 192, some 2⟩)) = false := by
  have h := c5_strict_option_validation "in.wav" "out.mp3" 16 10 (some 192) (some 2)
  exact ⟨(h.1 rfl rfl).1, (h.2.1 (by decide)).1, (h.2.2 (by decide)).1, (h.1 rfl rfl).2⟩

/-- Claim C6, amended: on the iOS chunk-scanning parser, inserting a
well-formed chunk with any 4-byte tag other than fmt and data between the
WAVE identifier and the fmt/data chunks leaves the parsed audio format
(audioFormat, channels, sampleRate, bitsPerSample) and data-chunk size
unchanged, shifts the data start by the inserted chunk length, leaves the
data payload bytes fed to the encoder identical, and therefore leaves the
conversion's encoder calls, output byte count and outcome unchanged; the
Android fixed-offset path has no such invariance (see the counterexample). -/
theorem c6_ios_chunk_insertion_invariant
    (pre rest tag payload : List Nat) (info : WavHeaderInfo)
    (opts : Option IosOptions) (oc : LameOracle)
    (hpre : pre.length = 12) (htag : tag.length = 4)
    (hft : tag ≠ fmtTag) (hdt : tag ≠ dataTag)
    (hlen : payload.length < 4294967296)
    (hbase : Ios.parseWavHeader (pre ++ rest) = .ok info) :
    Ios.parseWavHeader (pre ++ (tag ++ le32 payload.length ++ payload) ++ rest)
      = .ok { info with dataStart := info.dataStart + (8 + payload.length) } ∧
    (pre ++ (tag ++ le32 payload.length ++ payload) ++ rest).drop
        (info.dataStart + (8 + payload.length)) = (pre ++ rest).drop info.dataStart ∧
    (Ios.convertWavToMp3 (pre ++ (tag ++ le32 payload.length ++ payload) ++ rest) opts oc).calls
      = (Ios.convertWavToMp3 (pre ++ rest) opts oc).calls ∧
    (Ios.convertWavToMp3 (pre ++ (tag ++ le32 payload.length ++ payload) ++ rest) opts oc).outBytes
      = (Ios.convertWavToMp3 (pre ++ rest) opts oc).outBytes ∧
    (Ios.convertWavToMp3 (pre ++ (tag ++ le32 payload.length ++ payload) ++ rest) opts oc).outcome
      = (Ios.convertWavToMp3 (pre ++ rest) opts oc).outcome := by
  obtain ⟨hparse, hdrop⟩ :=
    Ios.parseWavHeader_insert_chunk pre rest tag payload info hpre htag hft hdt hlen hbase
  have hcc := Ios.convert_congr
    (pre ++ (tag ++ le32 payload.length ++ payload) ++ rest) (pre ++ rest) opts oc
    { info with dataStart := info.dataStart + (8 + payload.length) } info
    hparse hbase rfl rfl rfl hdrop
  exact ⟨hparse, hdrop, hcc.1, hcc.2.1, hcc.2.2⟩

/-- Claim C6, witness: inserting the 12-byte JUNK chunk into the sample file
leaves its parsed format unchanged, shifts the data start from 44 to 56,
preserves the data payload, and gives an identical conversion result. -/
theorem c6_ios_chunk_insertion_invariant_witness :
    Ios.parseWavHeader insertedWav = .ok ⟨1, 1, 44100, 16, 56, 8⟩ ∧
    insertedWav.drop 56 = sampleWav.drop 44 ∧
    (Ios.convertWavToMp3 insertedWav none allOkOracle).outBytes
      = (Ios.convertWavToMp3 sampleWav none allOkOracle).outBytes := by
  have h := c6_ios_chunk_insertion_invariant pre12 rest40 [74, 85, 78, 75] [7, 7, 7, 7]
    ⟨1, 1, 44100, 16, 44, 8⟩ none allOkOracle rfl rfl (by decide) (by decide) (by decide)
    (by decide)
  exact ⟨h.1, h.2.1, h.2.2.2.1⟩

/-- Claim C6, counterexample: on the Android fixed-offset path the same
insertion changes the parsed header fields (the channel count is read from
offset 22, which now falls inside the junk chunk), so the claim as stated
fails on the Android convert path. -/
theorem c6_counterexample_android_chunk_insertion :
    insertedWav = pre12 ++ junkChunk ++ rest40 ∧
    sampleWav = pre12 ++ rest40 ∧
    Android.readWavHeader insertedWav ≠ Android.readWavHeader sampleWav := by
  refine ⟨rfl, rfl, by decide⟩

/-- Claim C7: in every encode loop iteration, channel count 1 selects
lame_encode_buffer and any other channel count selects
lame_encode_buffer_interleaved, and the frame count passed equals the number
of 16-bit samples read divided by the channel count, on both platforms. -/
theorem c7_encode_entry_and_frame_count (oc oc2 : LameOracle)
    (ch total bp ch2 : Nat) (pcm pcm2 : List Nat) :
    (∀ c ∈ (Ios.loop oc ch total pcm bp).calls,
        c.entry = (if ch = 1 then EntryKind.encodeBuffer else .encodeBufferInterleaved) ∧
        c.frames = c.shortsRead / ch) ∧
    (∀ c ∈ (Android.loop oc2 ch2 pcm2).calls,
        c.entry = (if ch2 = 1 then EntryKind.encodeBuffer else .encodeBufferInterleaved) ∧
        c.frames = c.shortsRead / ch2) := by
  constructor
  · intro c hc
    have h := Ios.loopAux_calls_spec _ oc ch total pcm bp [] c hc
    exact ⟨h.1, h.2.1⟩
  · intro c hc
    have h := Android.androidLoopAux_calls_spec _ oc2 ch2 pcm2 [] c hc
    exact ⟨h.1, h.2.1⟩

/-- Claim C7, witness: a concrete mono loop on each platform makes one
lame_encode_buffer call with 4 frames for 4 samples read. -/
theorem c7_encode_entry_and_frame_count_witness :
    (⟨EntryKind.encodeBuffer, 4, 4, mp3BufferBytes⟩ : EncodeCall)
      ∈ (Ios.loop allOkOracle 1 52 [1, 0, 2, 0, 3, 0, 4, 0] 44).calls ∧
    (EncodeCall.entry ⟨EntryKind.encodeBuffer, 4, 4, mp3BufferBytes⟩
      = if 1 = 1 then EntryKind.encodeBuffer else .encodeBufferInterleaved) ∧
    EncodeCall.frames ⟨EntryKind.encodeBuffer, 4, 4, mp3BufferBytes⟩
      = EncodeCall.shortsRead ⟨EntryKind.encodeBuffer, 4, 4, mp3BufferBytes⟩ / 1 ∧
    (⟨EntryKind.encodeBuffer, 4, 4, mp3BufferBytes⟩ : EncodeCall)
      ∈ (Android.loop allOkOracle 1 [1, 0, 2, 0, 3, 0, 4, 0]).calls := by
  have h := c7_encode_entry_and_frame_count allOkOracle allOkOracle 1 52 44 1
    [1, 0, 2, 0, 3, 0, 4, 0] [1, 0, 2, 0, 3, 0, 4, 0]
  have hm : (⟨EntryKind.encodeBuffer, 4, 4, mp3BufferBytes⟩ : EncodeCall)
      ∈ (Ios.loop allOkOracle 1 52 [1, 0, 2, 0, 3, 0, 4, 0] 44).calls := by decide
  have hm2 : (⟨EntryKind.encodeBuffer, 4, 4, mp3BufferBytes⟩ : EncodeCall)
      ∈ (Android.loop allOkOracle 1 [1, 0, 2, 0, 3, 0, 4, 0]).calls := by decide
  exact ⟨hm, (h.1 _ hm).1, (h.1 _ hm).2, hm2⟩

/-- Claim C8: the encode loops allocate a fixed MP3 output buffer of
bufferSize * 2 = 8192 bytes and pass it to every encode call, but a full read
buffer holds bufferSize = 4096 frames (a mono fread of a full buffer returns
exactly bufferSize 16-bit samples, the fourth conjunct), for which the
encoder contract demands 1.25 * 4096 + 7200 = 12320 bytes; the allocated
buffer is therefore smaller than the worst case the contract requires.  The
last conjunct evaluates a concrete conversion and shows the buffer size
passed to the encode call is the undersized mp3BufferBytes. -/
theorem c8_mp3_buffer_undersized :
    mp3BufferBytes < lameWorstCase bufferSize ∧
    mp3BufferBytes = 8192 ∧ lameWorstCase bufferSize = 12320 ∧
    min (bufferSize * 1) (8192 / 2) = bufferSize ∧
    (Android.nativeConvertWavToMp3 sampleWav (-1) (-1) allOkOracle).calls
      = [⟨EntryKind.encodeBuffer, 4, 4, mp3BufferBytes⟩] := by
  refine ⟨by decide, by decide, by decide, by decide, by decide⟩

/-- Claim C4: during one iOS conversion every emitted progress sample is the
fraction bytesProcessed / totalBytes where totalBytes is the whole input file
size, the numerators never exceed the denominator, the fractions are
monotonically non-decreasing, none exceeds 1, and each equals its value
clamped to the interval from 0 to 1 (the code emits the raw quotient, which
never leaves that interval). -/
theorem c4_progress_monotone_clamped (d : List Nat) (opts : Option IosOptions)
    (oc : LameOracle) :
    List.Pairwise (fun a b : Nat × Nat =>
        (a.1 : ℚ) / (a.2 : ℚ) ≤ (b.1 : ℚ) / (b.2 : ℚ))
      (Ios.convertWavToMp3 d opts oc).progress ∧
    ∀ pr ∈ (Ios.convertWavToMp3 d opts oc).progress,
      pr.2 = d.length ∧ pr.1 ≤ pr.2 ∧
      0 ≤ (pr.1 : ℚ) / (pr.2 : ℚ) ∧ (pr.1 : ℚ) / (pr.2 : ℚ) ≤ 1 ∧
      (pr.1 : ℚ) / (pr.2 : ℚ) = max 0 (min 1 ((pr.1 : ℚ) / (pr.2 : ℚ))) := by
  have hq : ∀ a t : Nat, a ≤ t →
      0 ≤ (a : ℚ) / (t : ℚ) ∧ (a : ℚ) / (t : ℚ) ≤ 1 ∧
      (a : ℚ) / (t : ℚ) = max 0 (min 1 ((a : ℚ) / (t : ℚ))) := by
    intro a t hat
    have h0 : (0 : ℚ) ≤ (a : ℚ) / (t : ℚ) :=
      div_nonneg (by positivity) (by positivity)
    have h1 : (a : ℚ) / (t : ℚ) ≤ 1 := by
      rcases Nat.eq_zero_or_pos t with ht | ht
      · subst ht
        simp
      · rw [div_le_one (by positivity)]
        exact_mod_cast hat
    refine ⟨h0, h1, ?_⟩
    rw [min_eq_right h1, max_eq_right h0]
  rcases Ios.convert_progress_cases d opts oc with hps | ⟨info, hp, hps⟩
  · rw [hps]
    exact ⟨List.Pairwise.nil, by simp⟩
  · rw [hps]
    have hds := Ios.parseWavHeader_dataStart_le d info hp
    have hbound : info.dataStart + (d.drop info.dataStart).length ≤ d.length := by
      simp
      omega
    have hspec := Ios.loop_progress_spec oc info.channels.toNat d.length
      (d.drop info.dataStart) info.dataStart hbound
    constructor
    · refine hspec.2.imp_of_mem ?_
      intro a b ha hb hab
      obtain ⟨_, hat, hat2⟩ := hspec.1 a ha
      obtain ⟨_, hbt, hbt2⟩ := hspec.1 b hb
      rw [hat2, hbt2]
      rcases Nat.eq_zero_or_pos d.length with ht | ht
      · simp [ht]
      · have htq : (0 : ℚ) < (d.length : ℚ) := by exact_mod_cast ht
        rw [div_le_div_iff_of_pos_right htq]
        exact_mod_cast hab
    · intro pr hpr
      obtain ⟨_, hle, heq⟩ := hspec.1 pr hpr
      have := hq pr.1 pr.2 (heq ▸ hle)
      exact ⟨heq, heq ▸ hle, this.1, this.2.1, this.2.2⟩

/-- Claim C4, witness: the sample conversion emits the progress sample
52 / 52 = 1, which is within bounds. -/
theorem c4_progress_monotone_clamped_witness :
    ((52, 52) : Nat × Nat) ∈ (Ios.convertWavToMp3 sampleWav none allOkOracle).progress ∧
    ((52, 52) : Nat × Nat).2 = sampleWav.length ∧
    ((52, 52) : Nat × Nat).1 ≤ ((52, 52) : Nat × Nat).2 ∧
    0 ≤ ((((52, 52) : Nat × Nat).1 : ℚ) / (((52, 52) : Nat × Nat).2 : ℚ)) ∧
    ((((52, 52) : Nat × Nat).1 : ℚ) / (((52, 52) : Nat × Nat).2 : ℚ)) ≤ 1 := by
  have h := c4_progress_monotone_clamped sampleWav none allOkOracle
  have hm : ((52, 52) : Nat × Nat)
      ∈ (Ios.convertWavToMp3 sampleWav none allOkOracle).progress := by decide
  obtain ⟨h1, h2, h3, h4, _⟩ := h.2 _ hm
  exact ⟨hm, h1, h2, h3, h4⟩

/-- Claim C9: on every conversion path that reaches successful encoder
creation (the lameInit event), the encoder session is closed exactly once and
both file handles are closed exactly once before the operation returns, on
both the iOS and Android native WAV paths. -/
theorem c9_resources_closed_once (d : List Nat) (opts : Option IosOptions)
    (oc : LameOracle) (d2 : List Nat) (b q : Int) (oc2 : LameOracle) :
    (REv.lameInit ∈ (Ios.convertWavToMp3 d opts oc).events →
      (Ios.convertWavToMp3 d opts oc).events.count .lameClose = 1 ∧
      (Ios.convertWavToMp3 d opts oc).events.count .closeWav = 1 ∧
      (Ios.convertWavToMp3 d opts oc).events.count .closeMp3 = 1) ∧
    (REv.lameInit ∈ (Android.nativeConvertWavToMp3 d2 b q oc2).events →
      (Android.nativeConvertWavToMp3 d2 b q oc2).events.count .lameClose = 1 ∧
      (Android.nativeConvertWavToMp3 d2 b q oc2).events.count .closeWav = 1 ∧
      (Android.nativeConvertWavToMp3 d2 b q oc2).events.count .closeMp3 = 1) := by
  constructor
  · intro h
    rcases Ios.convert_events_cases d opts oc with he | he | he | he | he <;>
      rw [he] at h ⊢ <;> revert h <;> decide
  · intro h
    rcases Android.nativeConvertWavToMp3_events_cases d2 b q oc2 with he | he | he <;>
      rw [he] at h ⊢ <;> revert h <;> decide

/-- Claim C9, witness: a successful conversion of the sample file on each
platform closes the session and both files exactly once. -/
theorem c9_resources_closed_once_witness :
    ((Ios.convertWavToMp3 sampleWav none allOkOracle).events.count .lameClose = 1 ∧
     (Ios.convertWavToMp3 sampleWav none allOkOracle).events.count .closeWav = 1 ∧
     (Ios.convertWavToMp3 sampleWav none allOkOracle).events.count .closeMp3 = 1) ∧
    ((Android.nativeConvertWavToMp3 sampleWav (-1) (-1) allOkOracle).events.count .lameClose = 1 ∧
     (Android.nativeConvertWavToMp3 sampleWav (-1) (-1) allOkOracle).events.count .closeWav = 1 ∧
     (Android.nativeConvertWavToMp3 sampleWav (-1) (-1) allOkOracle).events.count .closeMp3 = 1) := by
  have h := c9_resources_closed_once sampleWav none allOkOracle sampleWav (-1) (-1) allOkOracle
  exact ⟨h.1 (by decide), h.2 (by decide)⟩

/-- Claim C10: the degraded fallback decodeAacToPcmFallback is unreachable
from the exported conversion entry points: every decode step a
nativeConvertAudioToMp3 run records comes from the primary attempt or the
file-descriptor retry, the fallback's own runs are the only ones marked with
the silence/raw-copy steps, and when the AAC decode (including its
file-descriptor retry) fails the operation returns -1 without encoding
anything. -/
theorem c10_fallback_unreachable (path d inp : List Nat) (b q : Int)
    (oc : Android.AudioConvOracle) (oo : Bool) :
    (∀ s ∈ (Android.nativeConvertAudioToMp3 path d b q oc).decodeSteps,
        s = .primaryAttempt ∨ s = .fdAttempt) ∧
    (∀ s ∈ (Android.decodeAacToPcmFallback inp oo).steps,
        s = .fallbackSilence ∨ s = .fallbackRawCopy) ∧
    ((Android.decodeAacToPcm oc.aac).result ≠ 0 →
      Android.getFileFormat path = Android.aacExt →
      (Android.nativeConvertAudioToMp3 path d b q oc).result = -1 ∧
      (Android.nativeConvertAudioToMp3 path d b q oc).calls = []) := by
  refine ⟨?_, ?_, ?_⟩
  · intro s hs
    rcases Android.audio_decodeSteps_cases path d b q oc with hc | hc
    · rw [hc] at hs
      rcases Android.decodeAacToPcm_steps oc.aac with ht | ht
      · rw [ht] at hs
        simp at hs
        exact Or.inl hs
      · rw [ht] at hs
        simp at hs
        rcases hs with h | h
        · exact Or.inl h
        · exact Or.inr h
    · rw [hc] at hs
      simp at hs
  · intro s hs
    unfold Android.decodeAacToPcmFallback at hs
    by_cases h1 : inp.length < 2
    · rw [if_pos h1] at hs
      simp at hs
    · rw [if_neg h1] at hs
      dsimp only at hs
      by_cases h2 : ¬ (inp.headD 0 = 255 ∧ (inp[1]? = some 241 ∨ inp[1]? = some 249)) ∧
          ¬ bytesAt inp 0 4 = [102, 116, 121, 112]
      · rw [if_pos h2] at hs
        by_cases h3 : ¬ oo = true
        · rw [if_pos h3] at hs
          simp at hs
        · rw [if_neg h3] at hs
          simp at hs
          exact Or.inr hs
      · rw [if_neg h2] at hs
        by_cases h3 : ¬ oo = true
        · rw [if_pos h3] at hs
          simp at hs
        · rw [if_neg h3] at hs
          simp at hs
          exact Or.inl hs
  · intro hres hfmt
    unfold Android.nativeConvertAudioToMp3
    dsimp only
    rw [if_pos hfmt, if_pos hres]
    exact ⟨rfl, rfl⟩

/-- Claim C10, witness: converting a path named a.aac when the decode and its
retry fail returns -1 with no encode calls, each recorded decode step is an
attempt marker, and a fallback run is marked with a fallback step. -/
theorem c10_fallback_unreachable_witness :
    DecodeStep.primaryAttempt
      ∈ (Android.nativeConvertAudioToMp3 aacPath [] (-1) (-1) failingAacOracle).decodeSteps ∧
    (DecodeStep.primaryAttempt = .primaryAttempt ∨ DecodeStep.primaryAttempt = .fdAttempt) ∧
    DecodeStep.fallbackRawCopy ∈ (Android.decodeAacToPcmFallback [0, 0, 0] true).steps ∧
    (Android.nativeConvertAudioToMp3 aacPath [] (-1) (-1) failingAacOracle).result = -1 ∧
    (Android.nativeConvertAudioToMp3 aacPath [] (-1) (-1) failingAacOracle).calls = [] := by
  have h := c10_fallback_unreachable aacPath [] [0, 0, 0] (-1) (-1) failingAacOracle true
  have h3 := h.2.2 (by decide) (by decide)
  exact ⟨by decide, h.1 _ (by decide), by decide, h3.1, h3.2⟩

end WavMp3
